import Mathlib

/-!
Verification development for the on-demand feature view module
(`sdk/python/feast/on_demand_feature_view.py`).

The Python code is shallowly embedded:
* pandas dataframes become association lists from column name to column
  (a column is a dtype string plus a list of cell values); column
  assignment `df[n] = s` replaces the column in place when the name is
  present and appends it otherwise, exactly like pandas / dict insertion;
* dict-valued attributes become association lists with the same
  insert-or-overwrite semantics;
* fallible code returns `Except`;
* the user transformation is carried as a Lean function on dataframes
  together with its serialized payload; equality of transformations
  compares only variant and payload, as documented.

Collaborator classes that are not part of the source file under
verification (Field, FeatureViewProjection, RequestSource, the
transformation classes' (de)serializers, the type maps) are modelled from
the spec; each such definition says so in its doc comment.
-/

namespace Feast

/-- A single pandas cell value.  Floats are modelled as opaque integer-tagged
tokens: only the identity of the canonical sample values matters here, never
float arithmetic. -/
inductive PdVal where
  | pdFloat (n : Int)
  | pdInt (n : Int)
  | pdStr (s : String)
  | pdBytes (s : String)
  | pdBool (b : Bool)
  | pdDatetime (t : Nat)
  | pdNone
deriving DecidableEq

/-- A pandas column: its dtype string and its cell data. -/
structure Column where
  dtype : String
  data : List PdVal
deriving DecidableEq

/-- A pandas dataframe, as an ordered association list keyed by column name. -/
abbrev Df := List (String × Column)

/-- Keys of an association list, in order. -/
def akeys (l : List (String × α)) : List String :=
  l.map Prod.fst

/-- Lookup in an association list (first match wins, as for unique-key dicts). -/
def alookup : List (String × α) → String → Option α
  | [], _ => none
  | p :: rest, n => if p.1 = n then some p.2 else alookup rest n

/-- Insert-or-overwrite, keeping the position of an existing key: the
semantics of Python dict assignment and of pandas column assignment. -/
def aset : List (String × α) → String → α → List (String × α)
  | [], k, v => [(k, v)]
  | p :: rest, k, v =>
    if p.1 = k then (k, v) :: rest else p :: aset rest k v

/-- Ordered flattening of a nested iteration, as a Python double loop
produces it. -/
def concatMap (g : α → List β) : List α → List β
  | [] => []
  | a :: as => g a ++ concatMap g as

/-- Drop every column whose name appears in `cl`
(`df.drop(columns=cl, inplace=True)`). -/
def dropCols (cl : List String) : Df → Df
  | [] => []
  | p :: rest => if p.1 ∈ cl then dropCols cl rest else p :: dropCols cl rest

/-- Column read (`df[n]`); callers only use it at present names. -/
def getCol (d : Df) (n : String) : Column :=
  (alookup d n).getD ⟨"", []⟩

/-- Feast value types (the fragment exercised by this module).
Modelled from the spec: `feast.value_type.ValueType` is not in the source
under verification; §3 of the spec lists the tagged union of value types. -/
inductive ValueType where
  | int64T
  | doubleT
  | stringT
  | bytesT
  | boolT
  | unixTimestampT
  | doubleListT
deriving DecidableEq

/-- A schema field: name plus declared value type.
Modelled from the spec: `feast.field.Field` is not in the source under
verification; §3 of the spec says a Field is a name plus a declared value
type, immutable, compared by value.  `Field.dtype.to_value_type()` is the
identity in this model because `dtype` is carried directly as a
`ValueType`. -/
structure Field where
  name : String
  dtype : ValueType
deriving DecidableEq

/-- Modelled from the spec: `FeatureViewProjection` is not in the source
under verification; per §3 and the glossary it is a reference to an
upstream view's name, an optional alias, and the projected fields. -/
structure FeatureViewProjection where
  name : String
  nameAlias : Option String
  features : List Field
deriving DecidableEq

/-- Modelled from the spec: `name_to_use()` returns the alias assigned when
the definition is consumed as an upstream projection, falling back to the
name (§4.4 step 3, "effective name"). -/
def FeatureViewProjection.nameToUse (p : FeatureViewProjection) : String :=
  p.nameAlias.getD p.name

/-- Modelled from the spec: `RequestSource` is not in the source under
verification; per §3 it is a named schema of fields supplied at request
time. -/
structure RequestSource where
  name : String
  schema : List Field
deriving DecidableEq

/-- The user transformation.  The serialized payload fields mirror the
interchange record of spec §6 (`user_defined_function: {name,
serialized_body, source_text}`, `substrait_transformation: {plan_bytes}`);
`func` is the executable row-batch function itself, which equality never
inspects (spec §3: transformation equality is variant plus serialized
payload). -/
inductive Transformation where
  | pandas (fname : String) (body : List Nat) (bodyText : String) (func : Df → Df)
  | substrait (plan : List Nat) (func : Df → Df)

/-- Run the transformation on a row batch (spec §4.1). -/
def Transformation.transform : Transformation → Df → Df
  | .pandas _ _ _ f, d => f d
  | .substrait _ f, d => f d

/-- The serialized payload of a transformation, the part its structural
equality compares (spec §3). -/
inductive TPayload where
  | pandasPayload (fname : String) (body : List Nat) (bodyText : String)
  | substraitPayload (plan : List Nat)
deriving DecidableEq

def Transformation.payload : Transformation → TPayload
  | .pandas n b t _ => .pandasPayload n b t
  | .substrait p _ => .substraitPayload p

/-- The definition object (`OnDemandFeatureView` attributes, source lines
67-75 plus the base-class `projection` and timestamps). -/
structure OnDemandFeatureView where
  name : String
  features : List Field
  sourceFeatureViewProjections : List (String × FeatureViewProjection)
  sourceRequestSources : List (String × RequestSource)
  transformation : Transformation
  feature_transformation : Transformation
  description : String
  tags : List (String × String)
  owner : String
  projection : FeatureViewProjection
  createdTimestamp : Option Nat
  lastUpdatedTimestamp : Option Nat

/-- A minimal upstream `FeatureView` as seen by this module: only its name
and its default projection are consulted (source lines 145-148).
Modelled from the spec (§4.2): a feature view passed directly contributes
its default projection, keyed by the view's name. -/
structure FeatureViewLite where
  name : String
  projection : FeatureViewProjection

/-- One declared input source (the `sources` constructor argument,
source lines 83-89). -/
inductive SourceDecl where
  | featureViewDecl (fv : FeatureViewLite)
  | requestSourceDecl (r : RequestSource)
  | projectionDecl (p : FeatureViewProjection)

/-- A user-supplied Python function as passed to the legacy `udf` argument
or to the decorator: its name, dill payload, captured source text and the
executable itself. -/
structure PyFunc where
  fname : String
  body : List Nat
  srcText : String
  func : Df → Df

/-- The source-partitioning loop of `__init__` (source lines 138-148):
request sources and feature-view projections are split into two name-keyed
mappings; a bare feature view contributes its default projection under the
view's name. -/
def partitionStep
    (acc : List (String × FeatureViewProjection) × List (String × RequestSource))
    (d : SourceDecl) :
    List (String × FeatureViewProjection) × List (String × RequestSource) :=
  match d with
  | .requestSourceDecl r => (acc.1, aset acc.2 r.name r)
  | .projectionDecl p => (aset acc.1 p.name p, acc.2)
  | .featureViewDecl fv => (aset acc.1 fv.name fv.projection, acc.2)

def partitionSources (decls : List SourceDecl) :
    List (String × FeatureViewProjection) × List (String × RequestSource) :=
  decls.foldl partitionStep ([], [])

/-- `OnDemandFeatureView.__init__` (source lines 78-151).  The
`featureTransformationArg` parameter mirrors the `feature_transformation`
constructor argument, which the body never reads; `self.transformation`
is the resolved transformation and `self.feature_transformation` is set to
`self.transformation` (lines 150-151).  The base-class constructor gives
the view its default projection over its own name and declared fields. -/
def mkODFV (name : String) (schema : List Field) (sources : List SourceDecl)
    (udf : Option PyFunc) (udfString : String)
    (transformation : Option Transformation)
    (featureTransformationArg : Option Transformation)
    (description : String) (tags : List (String × String)) (owner : String) :
    Except String OnDemandFeatureView :=
  let _ := featureTransformationArg
  let resolved : Option Transformation :=
    match transformation with
    | some t => some t
    | none =>
      match udf with
      | some u => some (.pandas u.fname u.body udfString u.func)
      | none => none
  match resolved with
  | none =>
    .error "OnDemandFeatureView needs to be initialized with either transformation or udf arguments"
  | some t =>
    let pr := partitionSources sources
    .ok ⟨name, schema, pr.1, pr.2, t, t, description, tags, owner,
      ⟨name, none, schema⟩, none, none⟩

/-- `OnDemandFeatureView.__copy__` (source lines 157-170): rebuild through
the constructor from the partitioned sources, passing the stored
transformation twice, then restore the projection. -/
def copyODFV (v : OnDemandFeatureView) : Except String OnDemandFeatureView :=
  match mkODFV v.name v.features
      ((v.sourceFeatureViewProjections.map (fun kp => SourceDecl.projectionDecl kp.2))
        ++ (v.sourceRequestSources.map (fun kr => SourceDecl.requestSourceDecl kr.2)))
      none "" (some v.transformation) (some v.transformation)
      v.description v.tags v.owner with
  | .error e => .error e
  | .ok fv =>
    .ok ⟨fv.name, fv.features, fv.sourceFeatureViewProjections,
      fv.sourceRequestSources, fv.transformation, fv.feature_transformation,
      fv.description, fv.tags, fv.owner, v.projection,
      fv.createdTimestamp, fv.lastUpdatedTimestamp⟩

/-- The `on_demand_feature_view` decorator, pandas path (source lines
508-563): the captured source text of the user function becomes the
transformation's source-text payload and the view is named after the
function.  The substrait path compiles an expression instead; both paths
then call the constructor without a `feature_transformation` argument. -/
def decoratorODFV (schema : List Field) (sources : List SourceDecl)
    (description : String) (tags : List (String × String)) (owner : String)
    (userFunction : PyFunc) : Except String OnDemandFeatureView :=
  let transformation : Transformation :=
    .pandas userFunction.fname userFunction.body userFunction.srcText
      userFunction.func
  mkODFV userFunction.fname schema sources none "" (some transformation) none
    description tags owner

/-! ### Interchange (protobuf) model

The proto records mirror the interchange schema of spec §6.  The sub-record
(de)serializers of the collaborator classes (Field, FeatureViewProjection,
RequestSource, the transformation classes) are modelled from the spec as
lossless field-by-field encodings (§4.1: payloads round-trip losslessly);
the logic of `to_proto` / `from_proto` of this module itself is translated
from the source. -/

structure FieldProto where
  name : String
  valueType : ValueType
deriving DecidableEq

structure FeatureViewProjectionProto where
  featureViewName : String
  featureViewNameAlias : Option String
  featureColumns : List FieldProto
deriving DecidableEq

structure RequestSourceProto where
  name : String
  schemaFields : List FieldProto
deriving DecidableEq

/-- One entry of the `sources` map: the oneof over source kinds.  The
`feature_view` variant of the wire oneof is never produced by `to_proto`
and is omitted from the model. -/
inductive OnDemandSourceProto where
  | featureViewProjectionS (p : FeatureViewProjectionProto)
  | requestDataSourceS (r : RequestSourceProto)
deriving DecidableEq

structure UserDefinedFunctionProto where
  fname : String
  body : List Nat
  bodyText : String
deriving DecidableEq

/-- The `FeatureTransformationV2` oneof. -/
inductive FeatureTransformationProto where
  | userDefinedFunctionT (u : UserDefinedFunctionProto)
  | substraitTransformationT (plan : List Nat)
  | unsetT
deriving DecidableEq

structure OnDemandFeatureViewSpecProto where
  name : String
  features : List FieldProto
  sources : List (String × OnDemandSourceProto)
  featureTransformation : FeatureTransformationProto
  /-- The legacy single-slot `user_defined_function` field of the spec
  message; `to_proto` never fills it, so it carries protobuf defaults. -/
  legacyUserDefinedFunction : UserDefinedFunctionProto
  description : String
  tags : List (String × String)
  owner : String
deriving DecidableEq

structure OnDemandFeatureViewMetaProto where
  createdTimestamp : Option Nat
  lastUpdatedTimestamp : Option Nat
deriving DecidableEq

structure OnDemandFeatureViewProto where
  spec : OnDemandFeatureViewSpecProto
  meta : OnDemandFeatureViewMetaProto
deriving DecidableEq

/-- Modelled from the spec: `Field.to_proto` serializes name and value
type (§6: `features[ {name, value_type} ]`). -/
def Field.toProto (f : Field) : FieldProto :=
  ⟨f.name, f.dtype⟩

/-- Modelled from the spec: the inverse of `Field.to_proto`;
`from_value_type` after `to_value_type` is the identity on declared value
types. -/
def Field.fromProto (p : FieldProto) : Field :=
  ⟨p.name, p.valueType⟩

/-- Modelled from the spec: projection (de)serialization is a lossless
field-by-field encoding. -/
def FeatureViewProjection.toProto (p : FeatureViewProjection) :
    FeatureViewProjectionProto :=
  ⟨p.name, p.nameAlias, p.features.map Field.toProto⟩

def FeatureViewProjection.fromProto (p : FeatureViewProjectionProto) :
    FeatureViewProjection :=
  ⟨p.featureViewName, p.featureViewNameAlias,
    p.featureColumns.map Field.fromProto⟩

/-- Modelled from the spec: request-source (de)serialization is a lossless
field-by-field encoding. -/
def RequestSource.toProto (r : RequestSource) : RequestSourceProto :=
  ⟨r.name, r.schema.map Field.toProto⟩

def RequestSource.fromProto (p : RequestSourceProto) : RequestSource :=
  ⟨p.name, p.schemaFields.map Field.fromProto⟩

/-- Modelled from the spec: `PandasTransformation.to_proto` emits the
function name, the dill-serialized body, and the captured source text
(§6: `user_defined_function: {name, serialized_body, source_text}`). -/
def pandasTransformationToProto (fname : String) (body : List Nat)
    (bodyText : String) : UserDefinedFunctionProto :=
  ⟨fname, body, bodyText⟩

/-- Modelled from the spec: dill deserialization rebuilds an executable
from the serialized body.  Transformation equality never inspects the
executable (spec §3), so the model reconstructs a fixed function. -/
def dillLoads (body : List Nat) : Df → Df :=
  let _ := body
  id

/-- Modelled from the spec: `PandasTransformation.from_proto` rebuilds the
transformation from name, body and source text. -/
def pandasTransformationFromProto (u : UserDefinedFunctionProto) :
    Transformation :=
  .pandas u.fname u.body u.bodyText (dillLoads u.body)

/-- `OnDemandFeatureView.to_proto` (source lines 195-238). -/
def OnDemandFeatureView.toProto (v : OnDemandFeatureView) :
    OnDemandFeatureViewProto :=
  let meta : OnDemandFeatureViewMetaProto :=
    ⟨v.createdTimestamp, v.lastUpdatedTimestamp⟩
  let sources0 : List (String × OnDemandSourceProto) :=
    v.sourceFeatureViewProjections.foldl
      (fun acc kp =>
        aset acc kp.1 (.featureViewProjectionS (FeatureViewProjection.toProto kp.2)))
      []
  let sources : List (String × OnDemandSourceProto) :=
    v.sourceRequestSources.foldl
      (fun acc kr => aset acc kr.1 (.requestDataSourceS (RequestSource.toProto kr.2)))
      sources0
  let featureTransformation : FeatureTransformationProto :=
    match v.transformation with
    | .pandas n b t _ => .userDefinedFunctionT (pandasTransformationToProto n b t)
    | .substrait plan _ => .substraitTransformationT plan
  ⟨⟨v.name, v.features.map Field.toProto, sources, featureTransformation,
    ⟨"", [], ""⟩, v.description, v.tags, v.owner⟩, meta⟩

/-- The transformation-selection chain of `from_proto` (source lines
271-305).  The conditions are exactly the source's: the modern
user-defined-function slot is used only when its `body_text` is non-empty;
a substrait payload is used as such; otherwise (the modern slot's
`body_text` empty, which includes the oneof being unset) the legacy
`user_defined_function` spec field is lifted into a pandas transformation.
The final `raise` of the source is unreachable because the spec message
always has the legacy field. -/
def transformationFromProto (spec : OnDemandFeatureViewSpecProto) :
    Transformation :=
  match spec.featureTransformation with
  | .userDefinedFunctionT u =>
    if u.bodyText ≠ "" then pandasTransformationFromProto u
    else pandasTransformationFromProto spec.legacyUserDefinedFunction
  | .substraitTransformationT plan => .substrait plan (dillLoads plan)
  | .unsetT => pandasTransformationFromProto spec.legacyUserDefinedFunction

/-- `OnDemandFeatureView.from_proto` (source lines 240-338): rebuild the
source declarations (dropping the map keys and re-keying by each source's
own name), select the transformation, construct through the class
constructor, then attach the freshly derived default projection and the
meta timestamps. -/
def OnDemandFeatureView.fromProto (p : OnDemandFeatureViewProto) :
    Except String OnDemandFeatureView :=
  let sources : List SourceDecl :=
    p.spec.sources.map
      (fun ks =>
        match ks.2 with
        | .featureViewProjectionS pr =>
          .projectionDecl (FeatureViewProjection.fromProto pr)
        | .requestDataSourceS r => .requestSourceDecl (RequestSource.fromProto r))
  let transformation := transformationFromProto p.spec
  match mkODFV p.spec.name (p.spec.features.map Field.fromProto) sources
      none "" (some transformation) none p.spec.description p.spec.tags
      p.spec.owner with
  | .error e => .error e
  | .ok obj =>
    .ok ⟨obj.name, obj.features, obj.sourceFeatureViewProjections,
      obj.sourceRequestSources, obj.transformation, obj.feature_transformation,
      obj.description, obj.tags, obj.owner,
      ⟨obj.name, none, obj.features⟩,
      p.meta.createdTimestamp, p.meta.lastUpdatedTimestamp⟩

/-- Structural equality of two definitions over the components named by
the interchange round-trip law: name, the two source mappings, the
transformation payload, the field list, description, tags and owner. -/
def odfvInterchangeEq (v w : OnDemandFeatureView) : Prop :=
  v.name = w.name ∧
  v.sourceFeatureViewProjections = w.sourceFeatureViewProjections ∧
  v.sourceRequestSources = w.sourceRequestSources ∧
  v.transformation.payload = w.transformation.payload ∧
  v.features = w.features ∧
  v.description = w.description ∧
  v.tags = w.tags ∧
  v.owner = w.owner

instance (v w : OnDemandFeatureView) : Decidable (odfvInterchangeEq v w) := by
  unfold odfvInterchangeEq
  infer_instance

/-! ### Structural equality (`__eq__`) -/

/-- A Python object on the right of `==`: either another
OnDemandFeatureView or a value of any other runtime type. -/
inductive PyObj where
  | odfvObj (v : OnDemandFeatureView)
  | otherObj (tag : String)

/-- Python errors surfaced by this module. -/
inductive PyError where
  | typeError (msg : String)
deriving DecidableEq

/-- Modelled from the spec: `BaseFeatureView.__eq__` compares the
inherited base fields — name, feature list, description, tags, owner
(§4.5 "name, inherited base fields"). -/
def baseFeatureViewEq (v w : OnDemandFeatureView) : Bool :=
  decide (v.name = w.name) && decide (v.features = w.features) &&
  decide (v.description = w.description) && decide (v.tags = w.tags) &&
  decide (v.owner = w.owner)

/-- `OnDemandFeatureView.__eq__` (source lines 172-190): comparing against
anything that is not an OnDemandFeatureView raises `TypeError`; otherwise
the base fields, both source mappings, the transformation and the
`feature_transformation` attribute are compared (transformations by
variant and payload, spec §3). -/
def odfvDunderEq (v : OnDemandFeatureView) (other : PyObj) :
    Except PyError Bool :=
  match other with
  | .otherObj _ =>
    .error (.typeError "Comparisons should only involve OnDemandFeatureView class objects.")
  | .odfvObj w =>
    if !baseFeatureViewEq v w then .ok false
    else if decide (v.sourceFeatureViewProjections ≠ w.sourceFeatureViewProjections) ||
        decide (v.sourceRequestSources ≠ w.sourceRequestSources) ||
        decide (v.transformation.payload ≠ w.transformation.payload) ||
        decide (v.feature_transformation.payload ≠ w.feature_transformation.payload) then
      .ok false
    else .ok true

/-! ### `get_request_data_schema` -/

/-- `get_request_data_schema` (source lines 340-354): starting from an
empty dict, for each request source build a fresh name-to-value-type dict
from its fields and merge it into the accumulator with `dict.update`.
The request-source schemas are field lists here (the dict-typed legacy
schema branch of the source performs the same `update`). -/
def getRequestDataSchema (v : OnDemandFeatureView) :
    List (String × ValueType) :=
  v.sourceRequestSources.foldl
    (fun sch kr =>
      let newSchema :=
        kr.2.schema.foldl (fun ns f => aset ns f.name f.dtype) []
      newSchema.foldl (fun s p => aset s p.1 p.2) sch)
    []

/-- The claim's own description of the merge, written from its words:
flatten every request source's (field name, value type) pairs in source
order and let the last write win on a name collision. -/
def requestSchemaSpecLookup (v : OnDemandFeatureView) (k : String) :
    Option ValueType :=
  alookup
    ((concatMap (fun kr => kr.2.schema.map (fun f => (f.name, f.dtype)))
        v.sourceRequestSources).reverse)
    k

/-! ### `infer_features` -/

/-- Modelled from the spec: `feast.type_map.feast_value_type_to_pandas_type`
is not in the source under verification; it maps a declared value type to
the pandas dtype string used to build the synthetic batch. -/
def feastValueTypeToPandasType : ValueType → String
  | .int64T => "int"
  | .doubleT => "float"
  | .stringT => "str"
  | .bytesT => "bytes"
  | .boolT => "bool"
  | .unixTimestampT => "datetime64[ns]"
  | .doubleListT => "object"

/-- The canonical sample-value table `rand_df_value` (source lines
404-411); the wall-clock `datetime.utcnow()` sample is modelled as a fixed
timestamp, `None` for dtypes outside the table. -/
def randDfValue : String → Option PdVal
  | "float" => some (.pdFloat 1)
  | "int" => some (.pdInt 1)
  | "str" => some (.pdStr "hello world")
  | "bytes" => some (.pdBytes "hello world")
  | "bool" => some (.pdBool true)
  | "datetime64[ns]" => some (.pdDatetime 0)
  | _ => none

/-- The data of `pd.Series(data=sample_val, dtype=dtype)`: a length-one
series when a sample exists, an empty series when `sample_val` is `None`. -/
def sampleData (dtype : String) : List PdVal :=
  match randDfValue dtype with
  | some v => [v]
  | none => []

/-- The sequence of column assignments performed while building the
synthetic inference batch (source lines 413-426), in program order: for
every projection feature, first the fully-qualified column as an *empty*
series of the feature's pandas dtype (`pd.Series(dtype=dtype)` carries no
data), then the short column as a series holding the sample value; then
one short-named sample column per request-source field. -/
def inferSets (v : OnDemandFeatureView) : List (String × Column) :=
  concatMap
      (fun kp =>
        concatMap
          (fun f =>
            let dtype := feastValueTypeToPandasType f.dtype
            [(kp.2.name ++ "__" ++ f.name, ⟨dtype, []⟩),
              (f.name, ⟨dtype, sampleData dtype⟩)])
          kp.2.features)
      v.sourceFeatureViewProjections
    ++ concatMap
        (fun kr =>
          kr.2.schema.map
            (fun f =>
              let dtype := feastValueTypeToPandasType f.dtype
              (f.name, ⟨dtype, sampleData dtype⟩)))
        v.sourceRequestSources

/-- Replay a sequence of column assignments on a dataframe. -/
def applySets (d : Df) (sets : List (String × Column)) : Df :=
  sets.foldl (fun acc p => aset acc p.1 p.2) d

/-- The synthetic batch handed to the transformation by `infer_features`. -/
def buildInferDf (v : OnDemandFeatureView) : Df :=
  applySets [] (inferSets v)

/-- Modelled from the spec: `feast.type_map.python_type_to_feast_value_type`
is not in the source under verification; per §4.3 step 4 it reverse-maps
the realized runtime dtype of an output column to a value type (the column
name argument of the Python function is used only in diagnostics). -/
def pyTypeToFeastValueType : String → ValueType
  | "int" => .int64T
  | "int64" => .int64T
  | "float" => .doubleT
  | "float64" => .doubleT
  | "bytes" => .bytesT
  | "bool" => .boolT
  | "datetime64[ns]" => .unixTimestampT
  | _ => .stringT

/-- The fields inferred from one run of the transformation on the
synthetic batch (source lines 427-437). -/
def inferredFeaturesOf (v : OnDemandFeatureView) : List Field :=
  (v.transformation.transform (buildInferDf v)).map
    (fun p => ⟨p.1, pyTypeToFeastValueType p.2.dtype⟩)

/-- Errors raised by `infer_features`. -/
inductive InferError where
  | specifiedFeaturesNotPresent (missing : List Field) (inferred : List Field)
      (viewName : String)
  | registryInferenceFailure (viewName : String)
deriving DecidableEq

/-- `infer_features` (source lines 397-455).  The mutation of
`self.features` is modelled by returning the updated view. -/
def inferFeatures (v : OnDemandFeatureView) :
    Except InferError OnDemandFeatureView :=
  let inferred := inferredFeaturesOf v
  if v.features.isEmpty then
    if inferred.isEmpty then .error (.registryInferenceFailure v.name)
    else
      .ok ⟨v.name, inferred, v.sourceFeatureViewProjections,
        v.sourceRequestSources, v.transformation, v.feature_transformation,
        v.description, v.tags, v.owner, v.projection,
        v.createdTimestamp, v.lastUpdatedTimestamp⟩
  else
    let missing := v.features.filter (fun f => f ∉ inferred)
    if missing.isEmpty then .ok v
    else .error (.specifiedFeaturesNotPresent missing inferred v.name)

/-! ### `get_transformed_features_df` -/

/-- The (projection name, feature name) pairs visited by the input
reconciliation loop, in iteration order (source lines 363-364; the loop
keys columns by each projection's own name). -/
def pairList (v : OnDemandFeatureView) : List (String × String) :=
  concatMap (fun kp => kp.2.features.map (fun f => (kp.2.name, f.name)))
    v.sourceFeatureViewProjections

/-- The input-reconciliation loop (source lines 362-373), threading the
mutated dataframe and the `columns_to_cleanup` accumulator: when the
fully-qualified column is present its values are copied onto the short
name and the short name is recorded for cleanup; otherwise, when the short
column is present, its values are copied onto the fully-qualified name,
which is recorded for cleanup. -/
def step1 : List (String × String) → Df → List String → Df × List String
  | [], df, cl => (df, cl)
  | (pn, fn) :: rest, df, cl =>
    let fullRef := pn ++ "__" ++ fn
    if fullRef ∈ akeys df then
      step1 rest (aset df fn (getCol df fullRef)) (cl ++ [fn])
    else if fn ∈ akeys df then
      step1 rest (aset df fullRef (getCol df fn)) (cl ++ [fullRef])
    else
      step1 rest df cl

/-- The output-reconciliation rename dict (source lines 380-391): per
declared output feature, with `full_feature_names` set, a present
short-named column is renamed to the qualified name; with it unset, the
qualified name is unconditionally mapped to the short name. -/
def renameColumnsMap (v : OnDemandFeatureView) (fullFeatureNames : Bool)
    (out : Df) : List (String × String) :=
  v.features.foldl
    (fun m f =>
      let shortName := f.name
      let longName := v.projection.nameToUse ++ "__" ++ f.name
      if shortName ∈ akeys out ∧ fullFeatureNames then
        aset m shortName longName
      else if !fullFeatureNames then aset m longName shortName
      else m)
    []

/-- Apply a rename dict to one column label (`DataFrame.rename` leaves
labels without an entry unchanged and ignores dict keys that are absent
from the frame). -/
def renameLabel (m : List (String × String)) (n : String) : String :=
  (alookup m n).getD n

/-- `DataFrame.rename(columns=m)`. -/
def renameDf (m : List (String × String)) (d : Df) : Df :=
  d.map (fun p => (renameLabel m p.1, p.2))

/-- The two observables of one `get_transformed_features_df` call:
`result` is the returned dataframe, `inputAfter` is the caller's dataframe
when the call returns (the method mutates its argument in place during
input reconciliation and drops `columns_to_cleanup` from it at the end,
source lines 393-395). -/
structure ApplyResult where
  result : Df
  inputAfter : Df
deriving DecidableEq

/-- `get_transformed_features_df` (source lines 356-395). -/
def getTransformedFeaturesDf (v : OnDemandFeatureView) (dfWithFeatures : Df)
    (fullFeatureNames : Bool) : ApplyResult :=
  let st := step1 (pairList v) dfWithFeatures []
  let out := v.transformation.transform st.1
  let renameColumns := renameColumnsMap v fullFeatureNames out
  ⟨renameDf renameColumns out, dropCols st.2 st.1⟩

/-! ### Association-list lemmas -/

theorem akeys_nil : akeys ([] : List (String × α)) = [] :=
  rfl

theorem akeys_cons (p : String × α) (l : List (String × α)) :
    akeys (p :: l) = p.1 :: akeys l :=
  rfl

theorem akeys_append (xs ys : List (String × α)) :
    akeys (xs ++ ys) = akeys xs ++ akeys ys := by
  simp [akeys]

theorem alookup_aset (l : List (String × α)) (k : String) (v : α) (n : String) :
    alookup (aset l k v) n = if k = n then some v else alookup l n := by
  induction l with
  | nil => simp [aset, alookup]
  | cons p rest ih =>
    by_cases hp : p.1 = k
    · by_cases hn : k = n
      · subst hn
        simp [aset, hp, alookup]
      · simp [aset, hp, alookup, hn]
    · by_cases hn : p.1 = n
      · have hkn : ¬ k = n := by
          intro h
          exact hp (by rw [hn, h])
        rw [aset, if_neg hp, alookup, if_pos hn, if_neg hkn, alookup, if_pos hn]
      · rw [aset, if_neg hp, alookup, if_neg hn, ih]
        by_cases hkn : k = n
        · rw [if_pos hkn, if_pos hkn]
        · rw [if_neg hkn, if_neg hkn, alookup, if_neg hn]

theorem mem_akeys_aset (l : List (String × α)) (k : String) (v : α) (n : String) :
    n ∈ akeys (aset l k v) ↔ n = k ∨ n ∈ akeys l := by
  induction l with
  | nil => simp [aset, akeys]
  | cons p rest ih =>
    by_cases hp : p.1 = k
    · rw [aset, if_pos hp]
      simp only [akeys_cons, List.mem_cons, hp]
      tauto
    · rw [aset, if_neg hp]
      simp only [akeys_cons, List.mem_cons]
      rw [ih]
      tauto

theorem mem_akeys_of_alookup {l : List (String × α)} {n : String} {v : α}
    (h : alookup l n = some v) : n ∈ akeys l := by
  induction l with
  | nil => simp [alookup] at h
  | cons p rest ih =>
    rw [alookup] at h
    by_cases hn : p.1 = n
    · rw [akeys_cons]
      exact List.mem_cons.mpr (Or.inl hn.symm)
    · rw [if_neg hn] at h
      rw [akeys_cons]
      exact List.mem_cons.mpr (Or.inr (ih h))

theorem alookup_eq_none_of_not_mem {l : List (String × α)} {n : String}
    (h : n ∉ akeys l) : alookup l n = none := by
  induction l with
  | nil => rfl
  | cons p rest ih =>
    rw [akeys_cons, List.mem_cons] at h
    push_neg at h
    rw [alookup, if_neg (fun he => h.1 he.symm)]
    exact ih h.2

theorem exists_alookup_of_mem_akeys {l : List (String × α)} {n : String}
    (h : n ∈ akeys l) : ∃ v, alookup l n = some v := by
  induction l with
  | nil => simp [akeys] at h
  | cons p rest ih =>
    rw [alookup]
    by_cases hn : p.1 = n
    · exact ⟨p.2, by rw [if_pos hn]⟩
    · rw [if_neg hn]
      rw [akeys_cons, List.mem_cons] at h
      rcases h with h | h
      · exact absurd h.symm hn
      · exact ih h

theorem alookup_append_some {xs ys : List (String × α)} {n : String} {v : α}
    (h : alookup xs n = some v) : alookup (xs ++ ys) n = some v := by
  induction xs with
  | nil => simp [alookup] at h
  | cons p rest ih =>
    rw [alookup] at h
    rw [List.cons_append, alookup]
    by_cases hn : p.1 = n
    · rwa [if_pos hn] at h ⊢
    · rw [if_neg hn] at h ⊢
      exact ih h

theorem alookup_append_none {xs ys : List (String × α)} {n : String}
    (h : alookup xs n = none) : alookup (xs ++ ys) n = alookup ys n := by
  induction xs with
  | nil => rfl
  | cons p rest ih =>
    rw [alookup] at h
    rw [List.cons_append, alookup]
    by_cases hn : p.1 = n
    · rw [if_pos hn] at h
      exact absurd h (by simp)
    · rw [if_neg hn] at h ⊢
      exact ih h

theorem alookup_mem {l : List (String × α)} {n : String} {v : α}
    (h : alookup l n = some v) : (n, v) ∈ l := by
  induction l with
  | nil => simp [alookup] at h
  | cons p rest ih =>
    rw [alookup] at h
    by_cases hn : p.1 = n
    · rw [if_pos hn] at h
      rw [List.mem_cons]
      left
      cases p with
      | mk p1 p2 =>
        simp only at hn h
        injection h with h2
        rw [← hn, ← h2]
    · rw [if_neg hn] at h
      exact List.mem_cons_of_mem _ (ih h)

theorem aset_fresh {l : List (String × α)} {k : String} (v : α)
    (h : k ∉ akeys l) : aset l k v = l ++ [(k, v)] := by
  induction l with
  | nil => rfl
  | cons p rest ih =>
    rw [akeys_cons, List.mem_cons] at h
    push_neg at h
    rw [aset, if_neg (fun he => h.1 he.symm), List.cons_append]
    congr 1
    exact ih h.2

theorem akeys_nodup_aset {l : List (String × α)} {k : String} {v : α}
    (h : (akeys l).Nodup) : (akeys (aset l k v)).Nodup := by
  induction l with
  | nil => simp [aset, akeys]
  | cons p rest ih =>
    rw [akeys_cons, List.nodup_cons] at h
    by_cases hp : p.1 = k
    · rw [aset, if_pos hp, akeys_cons, List.nodup_cons]
      exact ⟨by rw [← hp]; exact h.1, h.2⟩
    · rw [aset, if_neg hp, akeys_cons, List.nodup_cons]
      refine ⟨fun hc => ?_, ih h.2⟩
      rw [mem_akeys_aset] at hc
      rcases hc with hc | hc
      · exact hp hc
      · exact h.1 hc

/-- Folding dict assignments: the last assignment to a key wins; keys never
assigned fall through to the accumulator. -/
theorem alookup_foldl_aset (entries : List (String × α)) :
    ∀ (acc : List (String × α)) (k : String),
      alookup (entries.foldl (fun s p => aset s p.1 p.2) acc) k =
        match alookup entries.reverse k with
        | some v => some v
        | none => alookup acc k := by
  induction entries with
  | nil => intro acc k; simp [alookup]
  | cons e rest ih =>
    intro acc k
    rw [List.foldl_cons, ih, List.reverse_cons]
    cases hr : alookup rest.reverse k with
    | some v => rw [alookup_append_some hr]
    | none =>
      rw [alookup_append_none hr, alookup_aset]
      by_cases he : e.1 = k
      · rw [if_pos he]
        simp [alookup, he]
      · rw [if_neg he]
        simp [alookup, he]

theorem foldl_aset_keys_nodup (entries : List (String × α)) :
    ∀ (acc : List (String × α)), (akeys acc).Nodup →
      (akeys (entries.foldl (fun s p => aset s p.1 p.2) acc)).Nodup := by
  induction entries with
  | nil => intro acc h; exact h
  | cons e rest ih =>
    intro acc h
    rw [List.foldl_cons]
    exact ih _ (akeys_nodup_aset h)

theorem alookup_reverse_of_nodup {l : List (String × α)}
    (h : (akeys l).Nodup) (k : String) :
    alookup l.reverse k = alookup l k := by
  induction l with
  | nil => rfl
  | cons p rest ih =>
    rw [akeys_cons, List.nodup_cons] at h
    rw [List.reverse_cons]
    by_cases hk : p.1 = k
    · have hnone : alookup rest.reverse k = none := by
        apply alookup_eq_none_of_not_mem
        intro hc
        apply h.1
        have hrev : akeys rest.reverse = (akeys rest).reverse := by
          simp [akeys]
        rw [hrev, List.mem_reverse] at hc
        rw [hk]
        exact hc
      rw [alookup_append_none hnone]
      simp [alookup, hk]
    · have hrev : alookup rest.reverse k = alookup rest k := ih h.2
      cases hr : alookup rest k with
      | some v =>
        rw [alookup_append_some (hrev.trans hr)]
        simp [alookup, hk, hr]
      | none =>
        rw [alookup_append_none (hrev.trans hr)]
        simp [alookup, hk, hr]

theorem alookup_of_nodup_mem {l : List (String × α)} {k : String} {v : α}
    (hnd : (akeys l).Nodup) (hm : (k, v) ∈ l) : alookup l k = some v := by
  induction l with
  | nil => simp at hm
  | cons p rest ih =>
    rw [akeys_cons, List.nodup_cons] at hnd
    rcases List.mem_cons.mp hm with hm | hm
    · rw [← hm]
      simp [alookup]
    · rw [alookup]
      have hk : ¬ p.1 = k := by
        intro he
        apply hnd.1
        rw [he]
        exact List.mem_map_of_mem Prod.fst hm
      rw [if_neg hk]
      exact ih hnd.2 hm

theorem mem_concatMap {g : α → List β} {l : List α} {b : β} :
    b ∈ concatMap g l ↔ ∃ a ∈ l, b ∈ g a := by
  induction l with
  | nil => simp [concatMap]
  | cons x xs ih =>
    rw [concatMap, List.mem_append, ih]
    constructor
    · rintro (h | ⟨a, ha, hb⟩)
      · exact ⟨x, List.mem_cons_self x xs, h⟩
      · exact ⟨a, List.mem_cons_of_mem x ha, hb⟩
    · rintro ⟨a, ha, hb⟩
      rcases List.mem_cons.mp ha with h | h
      · rw [h] at hb
        exact Or.inl hb
      · exact Or.inr ⟨a, h, hb⟩

/-! ### dropCols lemmas -/

theorem dropCols_nil (d : Df) : dropCols [] d = d := by
  induction d with
  | nil => rfl
  | cons p rest ih => simp [dropCols, ih]

theorem mem_akeys_dropCols {cl : List String} {d : Df} {n : String} :
    n ∈ akeys (dropCols cl d) ↔ n ∈ akeys d ∧ n ∉ cl := by
  induction d with
  | nil => simp [dropCols, akeys]
  | cons p rest ih =>
    rw [dropCols]
    by_cases hp : p.1 ∈ cl
    · rw [if_pos hp, ih, akeys_cons]
      simp only [List.mem_cons]
      constructor
      · rintro ⟨h1, h2⟩
        exact ⟨Or.inr h1, h2⟩
      · rintro ⟨h1, h2⟩
        rcases h1 with h1 | h1
        · rw [h1] at h2
          exact absurd hp h2
        · exact ⟨h1, h2⟩
    · rw [if_neg hp, akeys_cons, akeys_cons]
      simp only [List.mem_cons]
      rw [ih]
      constructor
      · rintro (h | ⟨h1, h2⟩)
        · exact ⟨Or.inl h, by rw [h]; exact hp⟩
        · exact ⟨Or.inr h1, h2⟩
      · rintro ⟨h1, h2⟩
        rcases h1 with h1 | h1
        · exact Or.inl h1
        · exact Or.inr ⟨h1, h2⟩

theorem dropCols_aset_of_mem {cl : List String} {k : String} (d : Df) (v : Column)
    (h : k ∈ cl) : dropCols cl (aset d k v) = dropCols cl d := by
  induction d with
  | nil => simp [aset, dropCols, h]
  | cons p rest ih =>
    by_cases hp : p.1 = k
    · rw [aset, if_pos hp, dropCols, if_pos h, dropCols, if_pos (by rw [hp]; exact h)]
    · rw [aset, if_neg hp, dropCols, dropCols]
      by_cases hm : p.1 ∈ cl
      · rw [if_pos hm, if_pos hm, ih]
      · rw [if_neg hm, if_neg hm, ih]

theorem dropCols_append (cl cl' : List String) (d : Df) :
    dropCols (cl ++ cl') d = dropCols cl' (dropCols cl d) := by
  induction d with
  | nil => rfl
  | cons p rest ih =>
    rw [dropCols, dropCols]
    by_cases h1 : p.1 ∈ cl
    · rw [if_pos (List.mem_append.mpr (Or.inl h1)), if_pos h1, ih]
    · rw [if_neg h1, dropCols]
      by_cases h2 : p.1 ∈ cl'
      · rw [if_pos (List.mem_append.mpr (Or.inr h2)), if_pos h2, ih]
      · rw [if_neg (fun hc => (List.mem_append.mp hc).elim h1 h2), if_neg h2, ih]

theorem dropCols_of_disjoint {cl : List String} {d : Df}
    (h : ∀ c ∈ cl, c ∉ akeys d) : dropCols cl d = d := by
  induction d with
  | nil => rfl
  | cons p rest ih =>
    rw [dropCols]
    have hp : p.1 ∉ cl := by
      intro hc
      exact h p.1 hc (by rw [akeys_cons]; exact List.mem_cons_self _ _)
    rw [if_neg hp]
    congr 1
    apply ih
    intro c hc hm
    apply h c hc
    rw [akeys_cons]
    exact List.mem_cons_of_mem _ hm

/-! ### Input-reconciliation (`step1`) lemmas -/

theorem step1_keys_mono (ps : List (String × String)) :
    ∀ (df : Df) (cl : List String) (n : String),
      n ∈ akeys df → n ∈ akeys (step1 ps df cl).1 := by
  induction ps with
  | nil => intro df cl n h; exact h
  | cons p rest ih =>
    intro df cl n h
    rw [step1]
    by_cases h1 : (p.1 ++ "__" ++ p.2) ∈ akeys df
    · rw [if_pos h1]
      exact ih _ _ _ ((mem_akeys_aset _ _ _ _).mpr (Or.inr h))
    · rw [if_neg h1]
      by_cases h2 : p.2 ∈ akeys df
      · rw [if_pos h2]
        exact ih _ _ _ ((mem_akeys_aset _ _ _ _).mpr (Or.inr h))
      · rw [if_neg h2]
        exact ih _ _ _ h

theorem step1_cleanup_mono (ps : List (String × String)) :
    ∀ (df : Df) (cl : List String) (c : String),
      c ∈ cl → c ∈ (step1 ps df cl).2 := by
  induction ps with
  | nil => intro df cl c h; exact h
  | cons p rest ih =>
    intro df cl c h
    rw [step1]
    by_cases h1 : (p.1 ++ "__" ++ p.2) ∈ akeys df
    · rw [if_pos h1]
      exact ih _ _ _ (List.mem_append.mpr (Or.inl h))
    · rw [if_neg h1]
      by_cases h2 : p.2 ∈ akeys df
      · rw [if_pos h2]
        exact ih _ _ _ (List.mem_append.mpr (Or.inl h))
      · rw [if_neg h2]
        exact ih _ _ _ h

theorem step1_keys_sub (ps : List (String × String)) :
    ∀ (df : Df) (cl : List String) (n : String),
      n ∈ akeys (step1 ps df cl).1 →
      n ∈ akeys df ∨ n ∈ (step1 ps df cl).2 := by
  induction ps with
  | nil => intro df cl n h; exact Or.inl h
  | cons p rest ih =>
    intro df cl n h
    rw [step1] at h ⊢
    by_cases h1 : (p.1 ++ "__" ++ p.2) ∈ akeys df
    · rw [if_pos h1] at h ⊢
      rcases ih _ _ _ h with hm | hm
      · rcases (mem_akeys_aset _ _ _ _).mp hm with he | hm'
        · right
          apply step1_cleanup_mono
          rw [he]
          exact List.mem_append.mpr (Or.inr (List.mem_singleton.mpr rfl))
        · exact Or.inl hm'
      · exact Or.inr hm
    · rw [if_neg h1] at h ⊢
      by_cases h2 : p.2 ∈ akeys df
      · rw [if_pos h2] at h ⊢
        rcases ih _ _ _ h with hm | hm
        · rcases (mem_akeys_aset _ _ _ _).mp hm with he | hm'
          · right
            apply step1_cleanup_mono
            rw [he]
            exact List.mem_append.mpr (Or.inr (List.mem_singleton.mpr rfl))
          · exact Or.inl hm'
        · exact Or.inr hm
      · rw [if_neg h2] at h ⊢
        exact ih _ _ _ h

theorem step1_presence (ps : List (String × String)) :
    ∀ (df : Df) (cl : List String) (pn fn : String),
      (pn, fn) ∈ ps →
      ((pn ++ "__" ++ fn) ∈ akeys df ∨ fn ∈ akeys df) →
      (pn ++ "__" ++ fn) ∈ akeys (step1 ps df cl).1 ∧
        fn ∈ akeys (step1 ps df cl).1 := by
  induction ps with
  | nil => intro df cl pn fn h; simp at h
  | cons p rest ih =>
    intro df cl pn fn hmem hpres
    rw [step1]
    rcases List.mem_cons.mp hmem with he | hmem'
    · -- the visited pair is the head
      have hp1 : p.1 = pn := by rw [← he]
      have hp2 : p.2 = fn := by rw [← he]
      rw [hp1, hp2]
      by_cases h1 : (pn ++ "__" ++ fn) ∈ akeys df
      · rw [if_pos h1]
        constructor
        · exact step1_keys_mono _ _ _ _ ((mem_akeys_aset _ _ _ _).mpr (Or.inr h1))
        · exact step1_keys_mono _ _ _ _ ((mem_akeys_aset _ _ _ _).mpr (Or.inl rfl))
      · rw [if_neg h1]
        have h2 : fn ∈ akeys df := by
          rcases hpres with h | h
          · exact absurd h h1
          · exact h
        rw [if_pos h2]
        constructor
        · exact step1_keys_mono _ _ _ _ ((mem_akeys_aset _ _ _ _).mpr (Or.inl rfl))
        · exact step1_keys_mono _ _ _ _ ((mem_akeys_aset _ _ _ _).mpr (Or.inr h2))
    · -- the visited pair is further down; presence is monotone
      by_cases h1 : (p.1 ++ "__" ++ p.2) ∈ akeys df
      · rw [if_pos h1]
        apply ih _ _ _ _ hmem'
        rcases hpres with h | h
        · exact Or.inl ((mem_akeys_aset _ _ _ _).mpr (Or.inr h))
        · exact Or.inr ((mem_akeys_aset _ _ _ _).mpr (Or.inr h))
      · rw [if_neg h1]
        by_cases h2 : p.2 ∈ akeys df
        · rw [if_pos h2]
          apply ih _ _ _ _ hmem'
          rcases hpres with h | h
          · exact Or.inl ((mem_akeys_aset _ _ _ _).mpr (Or.inr h))
          · exact Or.inr ((mem_akeys_aset _ _ _ _).mpr (Or.inr h))
        · rw [if_neg h2]
          exact ih _ _ _ _ hmem' hpres

theorem step1_append (xs ys : List (String × String)) :
    ∀ (df : Df) (cl : List String),
      step1 (xs ++ ys) df cl =
        step1 ys (step1 xs df cl).1 (step1 xs df cl).2 := by
  induction xs with
  | nil => intro df cl; rfl
  | cons p rest ih =>
    intro df cl
    rw [List.cons_append, step1, step1]
    by_cases h1 : (p.1 ++ "__" ++ p.2) ∈ akeys df
    · rw [if_pos h1, if_pos h1, ih]
    · rw [if_neg h1, if_neg h1]
      by_cases h2 : p.2 ∈ akeys df
      · rw [if_pos h2, if_pos h2, ih]
      · rw [if_neg h2, if_neg h2, ih]

/-! ### String-name helper lemmas -/

theorem qual_ne_short (pn fn : String) : pn ++ "__" ++ fn ≠ fn := by
  intro h
  have hl := congrArg String.length h
  rw [String.length_append, String.length_append] at hl
  have h2 : ("__" : String).length = 2 := rfl
  omega

theorem append_left_cancel_str {a b c : String} (h : a ++ b = a ++ c) : b = c := by
  apply String.ext
  have hd := congrArg String.data h
  rw [String.data_append, String.data_append] at hd
  exact List.append_cancel_left hd

/-- The caller's dataframe is restored by the final `drop` whenever no
reconciliation step ever overwrites one of its original columns: the
visited qualified names are pairwise distinct, never equal to a visited
short name, and no visited pair has both of its columns in the original
frame. -/
theorem step1_restore (df0 : Df) (ps : List (String × String)) :
    ∀ (df : Df) (cl : List String),
      (∀ p ∈ ps, (p.1 ++ "__" ++ p.2) ∉ cl) →
      (∀ p ∈ ps, ¬((p.1 ++ "__" ++ p.2) ∈ akeys df0 ∧ p.2 ∈ akeys df0)) →
      (∀ p ∈ ps, ∀ q ∈ ps, (q.1 ++ "__" ++ q.2) ≠ p.2) →
      List.Pairwise (fun p q => (p.1 ++ "__" ++ p.2) ≠ (q.1 ++ "__" ++ q.2)) ps →
      dropCols cl df = df0 →
      (∀ c ∈ cl, c ∉ akeys df0) →
      dropCols (step1 ps df cl).2 (step1 ps df cl).1 = df0 := by
  induction ps with
  | nil =>
    intro df cl _ _ _ _ hinv _
    exact hinv
  | cons p rest ih =>
    intro df cl ha hb hc hpw hinv hcl
    have hpmem : p ∈ p :: rest := List.mem_cons_self p rest
    rw [step1]
    by_cases h1 : (p.1 ++ "__" ++ p.2) ∈ akeys df
    · rw [if_pos h1]
      have hq0 : (p.1 ++ "__" ++ p.2) ∈ akeys df0 := by
        rw [← hinv]
        exact mem_akeys_dropCols.mpr ⟨h1, ha p hpmem⟩
      have hfn0 : p.2 ∉ akeys df0 := fun hf => hb p hpmem ⟨hq0, hf⟩
      apply ih
      · intro r hr
        rw [List.mem_append]
        push_neg
        refine ⟨ha r (List.mem_cons_of_mem p hr), ?_⟩
        intro hsing
        rw [List.mem_singleton] at hsing
        exact hc p hpmem r (List.mem_cons_of_mem p hr) hsing
      · intro r hr
        exact hb r (List.mem_cons_of_mem p hr)
      · intro r hr s hs
        exact hc r (List.mem_cons_of_mem p hr) s (List.mem_cons_of_mem p hs)
      · exact (List.pairwise_cons.mp hpw).2
      · rw [dropCols_aset_of_mem _ _ (List.mem_append.mpr (Or.inr (List.mem_singleton.mpr rfl))),
          dropCols_append, hinv]
        apply dropCols_of_disjoint
        intro c hcm
        rw [List.mem_singleton] at hcm
        rw [hcm]
        exact hfn0
      · intro c hcm
        rcases List.mem_append.mp hcm with hcm | hcm
        · exact hcl c hcm
        · rw [List.mem_singleton] at hcm
          rw [hcm]
          exact hfn0
    · rw [if_neg h1]
      by_cases h2 : p.2 ∈ akeys df
      · rw [if_pos h2]
        have hq0 : (p.1 ++ "__" ++ p.2) ∉ akeys df0 := by
          intro hq
          apply h1
          rw [← hinv] at hq
          exact (mem_akeys_dropCols.mp hq).1
        apply ih
        · intro r hr
          rw [List.mem_append]
          push_neg
          refine ⟨ha r (List.mem_cons_of_mem p hr), ?_⟩
          intro hsing
          rw [List.mem_singleton] at hsing
          exact ((List.pairwise_cons.mp hpw).1 r hr).symm hsing
        · intro r hr
          exact hb r (List.mem_cons_of_mem p hr)
        · intro r hr s hs
          exact hc r (List.mem_cons_of_mem p hr) s (List.mem_cons_of_mem p hs)
        · exact (List.pairwise_cons.mp hpw).2
        · rw [dropCols_aset_of_mem _ _ (List.mem_append.mpr (Or.inr (List.mem_singleton.mpr rfl))),
            dropCols_append, hinv]
          apply dropCols_of_disjoint
          intro c hcm
          rw [List.mem_singleton] at hcm
          rw [hcm]
          exact hq0
        · intro c hcm
          rcases List.mem_append.mp hcm with hcm | hcm
          · exact hcl c hcm
          · rw [List.mem_singleton] at hcm
            rw [hcm]
            exact hq0
      · rw [if_neg h2]
        apply ih
        · intro r hr
          exact ha r (List.mem_cons_of_mem p hr)
        · intro r hr
          exact hb r (List.mem_cons_of_mem p hr)
        · intro r hr s hs
          exact hc r (List.mem_cons_of_mem p hr) s (List.mem_cons_of_mem p hs)
        · exact (List.pairwise_cons.mp hpw).2
        · exact hinv
        · exact hcl

/-! ### Concrete example objects used by counterexamples and witnesses -/

/-- An identity pandas transformation with a concrete payload. -/
def idTransformation : Transformation :=
  .pandas "udf" [1] "def udf(df): return df" id

/-- A pandas transformation that keeps its input columns and adds the
output column `odfv__out` (like `df.assign`, it returns a fresh frame). -/
def assignTransformation : Transformation :=
  .pandas "udf" [1] "def udf(df): return df.assign(...)"
    (fun d => aset d "odfv__out" ⟨"float", [.pdFloat 2]⟩)

/-- A view over one upstream projection `src` with one field `lat`,
declaring output field `out`, using the identity transformation. -/
def viewIdSrcLat : OnDemandFeatureView :=
  ⟨"odfv", [⟨"out", .doubleT⟩],
    [("src", ⟨"src", none, [⟨"lat", .doubleT⟩]⟩)],
    [("req", ⟨"req", [⟨"threshold", .doubleT⟩]⟩)],
    idTransformation, idTransformation,
    "desc", [("k", "v")], "owner",
    ⟨"odfv", none, [⟨"out", .doubleT⟩]⟩, none, none⟩

/-- Same shape but with the assigning transformation and no request source. -/
def viewAssignSrcLat : OnDemandFeatureView :=
  ⟨"odfv", [⟨"out", .doubleT⟩],
    [("src", ⟨"src", none, [⟨"lat", .doubleT⟩]⟩)],
    [],
    assignTransformation, assignTransformation,
    "", [], "",
    ⟨"odfv", none, [⟨"out", .doubleT⟩]⟩, none, none⟩

def colLatQualified : Column := ⟨"float", [.pdFloat 3]⟩

def colLatShort : Column := ⟨"float", [.pdFloat 4]⟩

/-! ### Claim C3 -/

/-- Claim C3 counterexample: with the input batch carrying *both* the
qualified column `src__lat` and the short column `lat`, the call
overwrites `lat` in place with the qualified values, records `lat` for
cleanup, and finally drops it — so the caller's dataframe has lost its
`lat` column when the call returns. -/
theorem c3_counterexample :
    (getTransformedFeaturesDf viewIdSrcLat
        [("src__lat", colLatQualified), ("lat", colLatShort)] false).inputAfter ≠
      [("src__lat", colLatQualified), ("lat", colLatShort)] := by
  decide

/-- Claim C3 (amended): `get_transformed_features_df` returns the caller's
dataframe unchanged (same columns, same values) provided no reconciliation
step overwrites an original column: the qualified names of the visited
(projection, feature) pairs are pairwise distinct and never coincide with a
visited short name, and no pair has both its qualified and its short
column present in the input batch. -/
theorem c3_amended (v : OnDemandFeatureView) (df : Df) (ffn : Bool)
    (hq : List.Pairwise
      (fun p q => (p.1 ++ "__" ++ p.2) ≠ (q.1 ++ "__" ++ q.2)) (pairList v))
    (hs : ∀ p ∈ pairList v, ∀ q ∈ pairList v, (q.1 ++ "__" ++ q.2) ≠ p.2)
    (hboth : ∀ p ∈ pairList v,
      ¬((p.1 ++ "__" ++ p.2) ∈ akeys df ∧ p.2 ∈ akeys df)) :
    (getTransformedFeaturesDf v df ffn).inputAfter = df := by
  show dropCols (step1 (pairList v) df []).2 (step1 (pairList v) df []).1 = df
  apply step1_restore df (pairList v) df []
  · intro p _
    exact List.not_mem_nil _
  · exact hboth
  · exact hs
  · exact hq
  · exact dropCols_nil df
  · intro c hc
    exact absurd hc (List.not_mem_nil c)

/-- Witness for the amended C3 at a concrete view and batch. -/
theorem c3_amended_witness :
    (getTransformedFeaturesDf viewIdSrcLat [("src__lat", colLatQualified)]
        false).inputAfter = [("src__lat", colLatQualified)] :=
  c3_amended viewIdSrcLat [("src__lat", colLatQualified)] false
    (by decide) (by decide) (by decide)

/-! ### Claim C6 -/

/-- Claim C6: input reconciliation.  (i) For every (projection, feature)
pair, if at least one of the qualified column `<source>__<field>` and the
short column `<field>` is present in the input batch, then both are
present in the batch handed to the transformation.  (ii) Every column of
that batch that was not in the input batch is tracked in
`columns_to_cleanup`.  (iii) At the step that visits a pair one of whose
columns is present, the present column's values are copied so that
immediately after the step the qualified and the short column hold the
same column value. -/
theorem c6_input_reconciliation (v : OnDemandFeatureView) (df : Df) :
    (∀ pn fn, (pn, fn) ∈ pairList v →
        ((pn ++ "__" ++ fn) ∈ akeys df ∨ fn ∈ akeys df) →
        (pn ++ "__" ++ fn) ∈ akeys (step1 (pairList v) df []).1 ∧
          fn ∈ akeys (step1 (pairList v) df []).1) ∧
    (∀ n, n ∈ akeys (step1 (pairList v) df []).1 →
        n ∈ akeys df ∨ n ∈ (step1 (pairList v) df []).2) ∧
    (∀ pre pn fn post, pairList v = pre ++ (pn, fn) :: post →
        ((pn ++ "__" ++ fn) ∈ akeys (step1 pre df []).1 ∨
          fn ∈ akeys (step1 pre df []).1) →
        alookup (step1 [(pn, fn)] (step1 pre df []).1 (step1 pre df []).2).1
            (pn ++ "__" ++ fn) =
          alookup (step1 [(pn, fn)] (step1 pre df []).1 (step1 pre df []).2).1
            fn ∧
        (alookup (step1 [(pn, fn)] (step1 pre df []).1 (step1 pre df []).2).1
            fn).isSome) := by
  refine ⟨?_, ?_, ?_⟩
  · intro pn fn hmem hpres
    exact step1_presence (pairList v) df [] pn fn hmem hpres
  · intro n hn
    exact step1_keys_sub (pairList v) df [] n hn
  · intro pre pn fn post _ hpres
    have hne : ¬ (pn ++ "__" ++ fn) = fn := qual_ne_short pn fn
    rw [step1]
    by_cases h1 : (pn ++ "__" ++ fn) ∈ akeys (step1 pre df []).1
    · rw [if_pos h1]
      obtain ⟨val, hval⟩ := exists_alookup_of_mem_akeys h1
      have hget : getCol (step1 pre df []).1 (pn ++ "__" ++ fn) = val := by
        rw [getCol, hval]
        rfl
      rw [show step1 [] (aset (step1 pre df []).1 fn
          (getCol (step1 pre df []).1 (pn ++ "__" ++ fn)))
          ((step1 pre df []).2 ++ [fn]) =
          (aset (step1 pre df []).1 fn
            (getCol (step1 pre df []).1 (pn ++ "__" ++ fn)),
            (step1 pre df []).2 ++ [fn]) from rfl]
      rw [alookup_aset, alookup_aset]
      rw [if_neg (fun he => hne he.symm), if_pos rfl, hval, hget]
      exact ⟨rfl, rfl⟩
    · rw [if_neg h1]
      have h2 : fn ∈ akeys (step1 pre df []).1 := by
        rcases hpres with h | h
        · exact absurd h h1
        · exact h
      rw [if_pos h2]
      obtain ⟨val, hval⟩ := exists_alookup_of_mem_akeys h2
      have hget : getCol (step1 pre df []).1 fn = val := by
        rw [getCol, hval]
        rfl
      rw [show step1 [] (aset (step1 pre df []).1 (pn ++ "__" ++ fn)
          (getCol (step1 pre df []).1 fn))
          ((step1 pre df []).2 ++ [pn ++ "__" ++ fn]) =
          (aset (step1 pre df []).1 (pn ++ "__" ++ fn)
            (getCol (step1 pre df []).1 fn),
            (step1 pre df []).2 ++ [pn ++ "__" ++ fn]) from rfl]
      rw [alookup_aset, alookup_aset]
      rw [if_pos rfl, if_neg hne, hval, hget]
      exact ⟨rfl, rfl⟩

/-- Witness for C6 at a concrete view and batch: the qualified column is
present in the input, so after reconciliation both columns exist, and the
one-step copy equates them. -/
theorem c6_input_reconciliation_witness :
    (("src" ++ "__" ++ "lat") ∈
        akeys (step1 (pairList viewIdSrcLat)
          [("src__lat", colLatQualified)] []).1 ∧
      "lat" ∈ akeys (step1 (pairList viewIdSrcLat)
        [("src__lat", colLatQualified)] []).1) ∧
    (alookup (step1 [("src", "lat")]
          (step1 [] [("src__lat", colLatQualified)] []).1
          (step1 [] [("src__lat", colLatQualified)] []).2).1
        ("src" ++ "__" ++ "lat") =
      alookup (step1 [("src", "lat")]
          (step1 [] [("src__lat", colLatQualified)] []).1
          (step1 [] [("src__lat", colLatQualified)] []).2).1 "lat") := by
  constructor
  · exact (c6_input_reconciliation viewIdSrcLat
        [("src__lat", colLatQualified)]).1 "src" "lat" (by decide) (by decide)
  · exact ((c6_input_reconciliation viewIdSrcLat
        [("src__lat", colLatQualified)]).2.2 [] "src" "lat" [] (by decide)
        (by decide)).1

/-! ### Claim C2 -/

theorem akeys_renameDf (m : List (String × String)) (d : Df) :
    akeys (renameDf m d) = (akeys d).map (renameLabel m) := by
  simp [renameDf, akeys, List.map_map]

/-- A transformation that, like a typical user function, returns a fresh
frame holding only the produced output column. -/
def freshOutTransformation : Transformation :=
  .pandas "udf" [2] "def udf(df): return pd.DataFrame(...)"
    (fun _ => [("odfv__out", ⟨"float", [.pdFloat 5]⟩)])

/-- Like `viewAssignSrcLat` but with the fresh-output transformation. -/
def viewFreshOut : OnDemandFeatureView :=
  ⟨"odfv", [⟨"out", .doubleT⟩],
    [("src", ⟨"src", none, [⟨"lat", .doubleT⟩]⟩)],
    [],
    freshOutTransformation, freshOutTransformation,
    "", [], "",
    ⟨"odfv", none, [⟨"out", .doubleT⟩]⟩, none, none⟩

/-- Claim C2 counterexample: the temporary short column `lat` (added while
reconciling the input `src__lat`) is recorded in `columns_to_cleanup`, yet
the returned batch still contains it, because the final `drop` is applied
to the *input* frame while the returned frame is the transformation's
output — here a transformation that keeps its input columns. -/
theorem c2_counterexample :
    "lat" ∈ (step1 (pairList viewAssignSrcLat)
        [("src__lat", colLatQualified)] []).2 ∧
      "lat" ∈ akeys (getTransformedFeaturesDf viewAssignSrcLat
        [("src__lat", colLatQualified)] false).result := by
  decide

/-- Claim C2 (amended): every temporary reconciliation column is dropped
from the *input* frame before returning; the *returned* batch contains no
temporary column provided the transformation's output does not itself
carry that column name and no output rename targets it. -/
theorem c2_amended (v : OnDemandFeatureView) (df : Df) (ffn : Bool)
    (c : String) (hc : c ∈ (step1 (pairList v) df []).2)
    (hout : c ∉ akeys (v.transformation.transform (step1 (pairList v) df []).1))
    (htgt : ∀ kv ∈ renameColumnsMap v ffn
        (v.transformation.transform (step1 (pairList v) df []).1), kv.2 ≠ c) :
    c ∉ akeys (getTransformedFeaturesDf v df ffn).result ∧
      c ∉ akeys (getTransformedFeaturesDf v df ffn).inputAfter := by
  constructor
  · show c ∉ akeys (renameDf _ _)
    rw [akeys_renameDf]
    intro hmem
    obtain ⟨n, hn, heq⟩ := List.mem_map.mp hmem
    rw [renameLabel] at heq
    cases hl : alookup (renameColumnsMap v ffn
        (v.transformation.transform (step1 (pairList v) df []).1)) n with
    | none =>
      rw [hl] at heq
      simp only [Option.getD_none] at heq
      rw [heq] at hn
      exact hout hn
    | some val =>
      rw [hl] at heq
      simp only [Option.getD_some] at heq
      rw [heq] at hl
      exact htgt _ (alookup_mem hl) rfl
  · show c ∉ akeys (dropCols _ _)
    intro h
    exact (mem_akeys_dropCols.mp h).2 hc

/-- Witness for the amended C2 at a concrete view and batch. -/
theorem c2_amended_witness :
    "lat" ∉ akeys (getTransformedFeaturesDf viewFreshOut
        [("src__lat", colLatQualified)] false).result ∧
      "lat" ∉ akeys (getTransformedFeaturesDf viewFreshOut
        [("src__lat", colLatQualified)] false).inputAfter :=
  c2_amended viewFreshOut [("src__lat", colLatQualified)] false "lat"
    (by decide) (by decide) (by decide)

/-! ### Claim C7 -/

/-- The output-reconciliation fold with its parameters made explicit:
`renameColumnsMap` is exactly this fold at the view's effective name,
declared features, and naming mode. -/
def renameFold (nm : String) (ffn : Bool) (out : Df) (fs : List Field)
    (acc : List (String × String)) : List (String × String) :=
  fs.foldl
    (fun m f =>
      if f.name ∈ akeys out ∧ ffn then aset m f.name (nm ++ "__" ++ f.name)
      else if !ffn then aset m (nm ++ "__" ++ f.name) f.name
      else m)
    acc

theorem renameColumnsMap_eq_renameFold (v : OnDemandFeatureView) (ffn : Bool)
    (out : Df) :
    renameColumnsMap v ffn out =
      renameFold (v.projection.nameToUse) ffn out v.features [] :=
  rfl

theorem renameFold_isSome_mono (nm : String) (ffn : Bool) (out : Df) :
    ∀ (fs : List Field) (acc : List (String × String)) (k : String),
      (alookup acc k).isSome →
      (alookup (renameFold nm ffn out fs acc) k).isSome := by
  intro fs
  induction fs with
  | nil => intro acc k h; exact h
  | cons f rest ih =>
    intro acc k h
    rw [renameFold, List.foldl_cons]
    apply ih
    by_cases h1 : f.name ∈ akeys out ∧ ffn = true
    · simp only [h1.1, h1.2, and_self, if_true]
      rw [alookup_aset]
      by_cases he : f.name = k
      · rw [if_pos he]; rfl
      · rw [if_neg he]; exact h
    · rw [if_neg (by simpa using h1)]
      by_cases h2 : ffn = false
      · rw [if_pos (by simp [h2])]
        rw [alookup_aset]
        by_cases he : nm ++ "__" ++ f.name = k
        · rw [if_pos he]; rfl
        · rw [if_neg he]; exact h
      · rw [if_neg (by simpa using h2)]
        exact h

theorem renameFold_true_inv (nm : String) (out : Df) :
    ∀ (fs : List Field) (acc : List (String × String)),
      (∀ k val, alookup acc k = some val → val = nm ++ "__" ++ k) →
      ∀ k val, alookup (renameFold nm true out fs acc) k = some val →
        val = nm ++ "__" ++ k := by
  intro fs
  induction fs with
  | nil => intro acc hacc k val h; exact hacc k val h
  | cons f rest ih =>
    intro acc hacc k val h
    rw [renameFold, List.foldl_cons] at h
    by_cases h1 : f.name ∈ akeys out
    · rw [if_pos (by simp [h1])] at h
      refine ih _ ?_ k val h
      intro k' val' h'
      rw [alookup_aset] at h'
      by_cases he : f.name = k'
      · rw [if_pos he] at h'
        injection h' with h''
        rw [← h'', he]
      · rw [if_neg he] at h'
        exact hacc k' val' h'
    · rw [if_neg (by simp [h1]), if_neg (by simp)] at h
      exact ih _ hacc k val h

theorem renameFold_true_presence (nm : String) (out : Df) :
    ∀ (fs : List Field) (acc : List (String × String)) (f : Field),
      f ∈ fs → f.name ∈ akeys out →
      (alookup (renameFold nm true out fs acc) f.name).isSome := by
  intro fs
  induction fs with
  | nil => intro acc f h; simp at h
  | cons g rest ih =>
    intro acc f hmem hout
    rcases List.mem_cons.mp hmem with he | hmem'
    · rw [renameFold, List.foldl_cons]
      rw [← he]
      rw [if_pos (by simp [hout])]
      apply renameFold_isSome_mono
      rw [alookup_aset, if_pos rfl]
      rfl
    · rw [renameFold, List.foldl_cons]
      by_cases h1 : g.name ∈ akeys out
      · rw [if_pos (by simp [h1])]
        exact ih _ f hmem' hout
      · rw [if_neg (by simp [h1]), if_neg (by simp)]
        exact ih _ f hmem' hout

theorem renameFold_false_inv (nm : String) (out : Df) :
    ∀ (fs : List Field) (acc : List (String × String)),
      (∀ k val, alookup acc k = some val → k = nm ++ "__" ++ val) →
      ∀ k val, alookup (renameFold nm false out fs acc) k = some val →
        k = nm ++ "__" ++ val := by
  intro fs
  induction fs with
  | nil => intro acc hacc k val h; exact hacc k val h
  | cons f rest ih =>
    intro acc hacc k val h
    rw [renameFold, List.foldl_cons, if_neg (by simp), if_pos (by simp)] at h
    refine ih _ ?_ k val h
    intro k' val' h'
    rw [alookup_aset] at h'
    by_cases he : nm ++ "__" ++ f.name = k'
    · rw [if_pos he] at h'
      injection h' with h''
      rw [← he, h'']
    · rw [if_neg he] at h'
      exact hacc k' val' h'

theorem renameFold_false_presence (nm : String) (out : Df) :
    ∀ (fs : List Field) (acc : List (String × String)) (f : Field),
      f ∈ fs →
      (alookup (renameFold nm false out fs acc) (nm ++ "__" ++ f.name)).isSome := by
  intro fs
  induction fs with
  | nil => intro acc f h; simp at h
  | cons g rest ih =>
    intro acc f hmem
    rw [renameFold, List.foldl_cons, if_neg (by simp), if_pos (by simp)]
    rcases List.mem_cons.mp hmem with he | hmem'
    · rw [← he]
      apply renameFold_isSome_mono
      rw [alookup_aset, if_pos rfl]
      rfl
    · exact ih _ f hmem'

/-- Claim C7: output reconciliation.  With `full_feature_names` set, a
declared output field whose short-named column is present in the
transformed batch is renamed to `<effective-view-name>__<field>`, which
therefore appears in the returned batch.  With the flag unset, the rename
dict maps the fully-qualified name to the short name, so a present
qualified column appears under the short name in the returned batch. -/
theorem c7_output_reconciliation (v : OnDemandFeatureView) (df : Df)
    (ffn : Bool) :
    (∀ f ∈ v.features, ffn = true →
      f.name ∈ akeys (v.transformation.transform (step1 (pairList v) df []).1) →
      alookup (renameColumnsMap v ffn
            (v.transformation.transform (step1 (pairList v) df []).1)) f.name =
          some (v.projection.nameToUse ++ "__" ++ f.name) ∧
        (v.projection.nameToUse ++ "__" ++ f.name) ∈
          akeys (getTransformedFeaturesDf v df ffn).result) ∧
    (∀ f ∈ v.features, ffn = false →
      alookup (renameColumnsMap v ffn
            (v.transformation.transform (step1 (pairList v) df []).1))
          (v.projection.nameToUse ++ "__" ++ f.name) = some f.name ∧
        ((v.projection.nameToUse ++ "__" ++ f.name) ∈
            akeys (v.transformation.transform (step1 (pairList v) df []).1) →
          f.name ∈ akeys (getTransformedFeaturesDf v df ffn).result)) := by
  constructor
  · intro f hf hffn hout
    subst hffn
    have hlookup : alookup (renameColumnsMap v true
        (v.transformation.transform (step1 (pairList v) df []).1)) f.name =
        some (v.projection.nameToUse ++ "__" ++ f.name) := by
      rw [renameColumnsMap_eq_renameFold]
      have hsome := renameFold_true_presence v.projection.nameToUse
        (v.transformation.transform (step1 (pairList v) df []).1)
        v.features [] f hf hout
      obtain ⟨val, hval⟩ := Option.isSome_iff_exists.mp hsome
      have hinv := renameFold_true_inv v.projection.nameToUse
        (v.transformation.transform (step1 (pairList v) df []).1)
        v.features [] (by intro k val h; simp [alookup] at h) f.name val hval
      rw [hval, hinv]
    refine ⟨hlookup, ?_⟩
    show _ ∈ akeys (renameDf _ _)
    rw [akeys_renameDf]
    apply List.mem_map.mpr
    refine ⟨f.name, hout, ?_⟩
    rw [renameLabel, hlookup]
    rfl
  · intro f hf hffn
    subst hffn
    have hlookup : alookup (renameColumnsMap v false
        (v.transformation.transform (step1 (pairList v) df []).1))
        (v.projection.nameToUse ++ "__" ++ f.name) = some f.name := by
      rw [renameColumnsMap_eq_renameFold]
      have hsome := renameFold_false_presence v.projection.nameToUse
        (v.transformation.transform (step1 (pairList v) df []).1)
        v.features [] f hf
      obtain ⟨val, hval⟩ := Option.isSome_iff_exists.mp hsome
      have hinv := renameFold_false_inv v.projection.nameToUse
        (v.transformation.transform (step1 (pairList v) df []).1)
        v.features [] (by intro k val h; simp [alookup] at h)
        (v.projection.nameToUse ++ "__" ++ f.name) val hval
      have hval' : val = f.name := append_left_cancel_str hinv.symm
      rw [hval, hval']
    refine ⟨hlookup, ?_⟩
    intro hq
    show _ ∈ akeys (renameDf _ _)
    rw [akeys_renameDf]
    apply List.mem_map.mpr
    refine ⟨v.projection.nameToUse ++ "__" ++ f.name, hq, ?_⟩
    rw [renameLabel, hlookup]
    rfl

/-- Witness for C7 at a concrete view and batch, exercising the
`full_feature_names = false` branch. -/
theorem c7_output_reconciliation_witness :
    alookup (renameColumnsMap viewAssignSrcLat false
          (viewAssignSrcLat.transformation.transform
            (step1 (pairList viewAssignSrcLat)
              [("src__lat", colLatQualified)] []).1))
        (viewAssignSrcLat.projection.nameToUse ++ "__" ++ "out") =
      some "out" := by
  have h := ((c7_output_reconciliation viewAssignSrcLat
      [("src__lat", colLatQualified)] false).2 ⟨"out", .doubleT⟩
      (by decide) rfl).1
  exact h

/-! ### Claim C8 -/

theorem option_match_id (x : Option α) :
    (match x with
      | some v => some v
      | none => none) = x := by
  cases x <;> rfl

theorem c8_merge_aux :
    ∀ (srcs : List (String × RequestSource)) (sch : List (String × ValueType))
      (k : String),
      alookup
          (srcs.foldl
            (fun sch kr =>
              ((kr.2.schema.foldl (fun ns f => aset ns f.name f.dtype) []).foldl
                (fun s p => aset s p.1 p.2) sch))
            sch) k =
        match
          alookup
            ((concatMap (fun kr => kr.2.schema.map (fun f => (f.name, f.dtype)))
              srcs).reverse) k with
        | some v => some v
        | none => alookup sch k := by
  intro srcs
  induction srcs with
  | nil =>
    intro sch k
    simp [concatMap, alookup]
  | cons kr rest ih =>
    intro sch k
    rw [List.foldl_cons, ih]
    have hnew : alookup
        ((kr.2.schema.foldl (fun ns f => aset ns f.name f.dtype) []).foldl
          (fun s p => aset s p.1 p.2) sch) k =
        match alookup (kr.2.schema.map (fun f => (f.name, f.dtype))).reverse k with
        | some v => some v
        | none => alookup sch k := by
      rw [alookup_foldl_aset]
      have hnd : (akeys (kr.2.schema.foldl
          (fun ns f => aset ns f.name f.dtype) [])).Nodup := by
        have : kr.2.schema.foldl (fun ns f => aset ns f.name f.dtype) [] =
            (kr.2.schema.map (fun f => (f.name, f.dtype))).foldl
              (fun s p => aset s p.1 p.2) [] := by
          rw [List.foldl_map]
        rw [this]
        exact foldl_aset_keys_nodup _ [] List.nodup_nil
      rw [alookup_reverse_of_nodup hnd]
      have hinner : kr.2.schema.foldl (fun ns f => aset ns f.name f.dtype) [] =
          (kr.2.schema.map (fun f => (f.name, f.dtype))).foldl
            (fun s p => aset s p.1 p.2) [] := by
        rw [List.foldl_map]
      rw [hinner, alookup_foldl_aset]
      have : alookup ([] : List (String × ValueType)) k = none := rfl
      rw [this]
      rw [option_match_id]
      cases alookup ((kr.2.schema.map (fun f => (f.name, f.dtype))).reverse) k <;>
        rfl
    rw [hnew, concatMap, List.reverse_append]
    cases hr : alookup
        ((concatMap (fun kr => kr.2.schema.map (fun f => (f.name, f.dtype)))
          rest).reverse) k with
    | some v => rw [alookup_append_some hr]
    | none => rw [alookup_append_none hr]

/-- Claim C8: `get_request_data_schema` returns the merged
field-name-to-value-type mapping across all request sources, with an entry
from a later source overwriting an earlier one on a name collision — the
lookup agrees pointwise with the latest-wins reading of the flattened
(field name, value type) pairs. -/
theorem c8_request_data_schema (v : OnDemandFeatureView) (k : String) :
    alookup (getRequestDataSchema v) k = requestSchemaSpecLookup v k := by
  show alookup
      (v.sourceRequestSources.foldl
        (fun sch kr =>
          ((kr.2.schema.foldl (fun ns f => aset ns f.name f.dtype) []).foldl
            (fun s p => aset s p.1 p.2) sch))
        []) k = requestSchemaSpecLookup v k
  rw [c8_merge_aux, requestSchemaSpecLookup]
  have : alookup ([] : List (String × ValueType)) k = none := rfl
  rw [this]
  cases alookup ((concatMap (fun kr => kr.2.schema.map (fun f => (f.name, f.dtype)))
      v.sourceRequestSources).reverse) k <;> rfl

/-! ### Claim C9 -/

/-- Claim C9: evaluating `v == x` for any object `x` that is not an
OnDemandFeatureView raises `TypeError` instead of returning `False`. -/
theorem c9_eq_type_error (v : OnDemandFeatureView) (tag : String) :
    odfvDunderEq v (.otherObj tag) =
      .error (.typeError
        "Comparisons should only involve OnDemandFeatureView class objects.") :=
  rfl

/-! ### Claim C10 -/

/-- Claim C10: on every successful construction path — the constructor,
the decorator, `__copy__`, and `from_proto` — the `feature_transformation`
attribute is the very transformation stored in `transformation`, and the
`feature_transformation` constructor argument never influences the
constructed object. -/
theorem c10_feature_transformation_attr :
    (∀ (name : String) (schema : List Field) (sources : List SourceDecl)
        (udf : Option PyFunc) (udfString : String)
        (tOpt ftA ftB : Option Transformation) (description : String)
        (tags : List (String × String)) (owner : String),
      mkODFV name schema sources udf udfString tOpt ftA description tags owner =
        mkODFV name schema sources udf udfString tOpt ftB description tags
          owner) ∧
    (∀ (name : String) (schema : List Field) (sources : List SourceDecl)
        (udf : Option PyFunc) (udfString : String)
        (tOpt ftA : Option Transformation) (description : String)
        (tags : List (String × String)) (owner : String)
        (v : OnDemandFeatureView),
      mkODFV name schema sources udf udfString tOpt ftA description tags owner =
          .ok v →
        v.feature_transformation = v.transformation) ∧
    (∀ (v w : OnDemandFeatureView), copyODFV v = .ok w →
      w.feature_transformation = w.transformation) ∧
    (∀ (p : OnDemandFeatureViewProto) (w : OnDemandFeatureView),
      OnDemandFeatureView.fromProto p = .ok w →
        w.feature_transformation = w.transformation) ∧
    (∀ (schema : List Field) (sources : List SourceDecl) (description : String)
        (tags : List (String × String)) (owner : String) (uf : PyFunc)
        (w : OnDemandFeatureView),
      decoratorODFV schema sources description tags owner uf = .ok w →
        w.feature_transformation = w.transformation) := by
  have hmk : ∀ (name : String) (schema : List Field) (sources : List SourceDecl)
      (udf : Option PyFunc) (udfString : String)
      (tOpt ftA : Option Transformation) (description : String)
      (tags : List (String × String)) (owner : String)
      (v : OnDemandFeatureView),
      mkODFV name schema sources udf udfString tOpt ftA description tags owner =
        .ok v →
      v.feature_transformation = v.transformation := by
    intro name schema sources udf udfString tOpt ftA description tags owner v h
    rw [mkODFV.eq_def] at h
    cases tOpt with
    | some t =>
      simp only [Except.ok.injEq] at h
      rw [← h]
    | none =>
      cases udf with
      | some u =>
        simp only [Except.ok.injEq] at h
        rw [← h]
      | none => simp at h
  refine ⟨?_, hmk, ?_, ?_, ?_⟩
  · intro name schema sources udf udfString tOpt ftA ftB description tags owner
    rfl
  · intro v w h
    rw [copyODFV] at h
    cases hmkres : mkODFV v.name v.features
        ((v.sourceFeatureViewProjections.map
            (fun kp => SourceDecl.projectionDecl kp.2))
          ++ (v.sourceRequestSources.map
            (fun kr => SourceDecl.requestSourceDecl kr.2)))
        none "" (some v.transformation) (some v.transformation)
        v.description v.tags v.owner with
    | error e => rw [hmkres] at h; simp at h
    | ok fv =>
      rw [hmkres] at h
      simp only [Except.ok.injEq] at h
      have hfv := hmk _ _ _ _ _ _ _ _ _ _ fv hmkres
      rw [← h]
      exact hfv
  · intro p w h
    rw [OnDemandFeatureView.fromProto] at h
    cases hmkres : mkODFV p.spec.name (p.spec.features.map Field.fromProto)
        (p.spec.sources.map
          (fun ks =>
            match ks.2 with
            | .featureViewProjectionS pr =>
              .projectionDecl (FeatureViewProjection.fromProto pr)
            | .requestDataSourceS r =>
              .requestSourceDecl (RequestSource.fromProto r)))
        none "" (some (transformationFromProto p.spec)) none p.spec.description
        p.spec.tags p.spec.owner with
    | error e => rw [hmkres] at h; simp at h
    | ok obj =>
      rw [hmkres] at h
      simp only [Except.ok.injEq] at h
      have hobj := hmk _ _ _ _ _ _ _ _ _ _ obj hmkres
      rw [← h]
      exact hobj
  · intro schema sources description tags owner uf w h
    rw [decoratorODFV] at h
    exact hmk _ _ _ _ _ _ _ _ _ _ w h

/-- Witness for C10: a concrete constructor call succeeds and the two
transformation attributes coincide on the constructed object. -/
theorem c10_feature_transformation_attr_witness :
    (mkODFV "odfv" [] [] none "" (some idTransformation)
        (some assignTransformation) "" [] "" =
      Except.ok
        (⟨"odfv", [], [], [], idTransformation, idTransformation, "", [], "",
          ⟨"odfv", none, []⟩, none, none⟩ : OnDemandFeatureView)) ∧
    (⟨"odfv", [], [], [], idTransformation, idTransformation, "", [], "",
        ⟨"odfv", none, []⟩, none, none⟩ :
        OnDemandFeatureView).feature_transformation =
      (⟨"odfv", [], [], [], idTransformation, idTransformation, "", [], "",
        ⟨"odfv", none, []⟩, none, none⟩ :
        OnDemandFeatureView).transformation := by
  constructor
  · rfl
  · exact c10_feature_transformation_attr.2.1 "odfv" [] [] none ""
      (some idTransformation) (some assignTransformation) "" [] "" _ rfl

/-! ### Claim C4 -/

theorem alookup_buildInferDf_of_nodup {v : OnDemandFeatureView} {n : String}
    {c : Column} (hnd : (akeys (inferSets v)).Nodup)
    (hm : (n, c) ∈ inferSets v) :
    alookup (buildInferDf v) n = some c := by
  show alookup ((inferSets v).foldl (fun acc p => aset acc p.1 p.2) []) n =
    some c
  rw [alookup_foldl_aset]
  have hndrev : (akeys (inferSets v).reverse).Nodup := by
    have : akeys (inferSets v).reverse = (akeys (inferSets v)).reverse := by
      simp [akeys]
    rw [this]
    exact List.nodup_reverse.mpr hnd
  have : alookup (inferSets v).reverse n = some c :=
    alookup_of_nodup_mem hndrev (List.mem_reverse.mpr hm)
  rw [this]

theorem mem_inferSets_qualified {v : OnDemandFeatureView}
    {kp : String × FeatureViewProjection} {f : Field}
    (hkp : kp ∈ v.sourceFeatureViewProjections) (hf : f ∈ kp.2.features) :
    (kp.2.name ++ "__" ++ f.name,
      (⟨feastValueTypeToPandasType f.dtype, []⟩ : Column)) ∈ inferSets v := by
  rw [inferSets]
  apply List.mem_append.mpr
  left
  apply mem_concatMap.mpr
  refine ⟨kp, hkp, ?_⟩
  apply mem_concatMap.mpr
  refine ⟨f, hf, ?_⟩
  exact List.mem_cons_self _ _

theorem mem_inferSets_short {v : OnDemandFeatureView}
    {kp : String × FeatureViewProjection} {f : Field}
    (hkp : kp ∈ v.sourceFeatureViewProjections) (hf : f ∈ kp.2.features) :
    (f.name,
      (⟨feastValueTypeToPandasType f.dtype,
        sampleData (feastValueTypeToPandasType f.dtype)⟩ : Column)) ∈
      inferSets v := by
  rw [inferSets]
  apply List.mem_append.mpr
  left
  apply mem_concatMap.mpr
  refine ⟨kp, hkp, ?_⟩
  apply mem_concatMap.mpr
  refine ⟨f, hf, ?_⟩
  exact List.mem_cons_of_mem _ (List.mem_cons_self _ _)

theorem mem_inferSets_request {v : OnDemandFeatureView}
    {kr : String × RequestSource} {f : Field}
    (hkr : kr ∈ v.sourceRequestSources) (hf : f ∈ kr.2.schema) :
    (f.name,
      (⟨feastValueTypeToPandasType f.dtype,
        sampleData (feastValueTypeToPandasType f.dtype)⟩ : Column)) ∈
      inferSets v := by
  rw [inferSets]
  apply List.mem_append.mpr
  right
  apply mem_concatMap.mpr
  refine ⟨kr, hkr, ?_⟩
  exact List.mem_map_of_mem _ hf

/-- The property claim C4 asserts of the synthetic inference batch: both
the fully-qualified and the short column of every projection field carry
the canonical sample value for the field's pandas dtype. -/
def claimC4SampleBoth (v : OnDemandFeatureView) : Prop :=
  ∀ kp ∈ v.sourceFeatureViewProjections, ∀ f ∈ kp.2.features,
    alookup (buildInferDf v) (kp.2.name ++ "__" ++ f.name) =
        some ⟨feastValueTypeToPandasType f.dtype,
          sampleData (feastValueTypeToPandasType f.dtype)⟩ ∧
      alookup (buildInferDf v) f.name =
        some ⟨feastValueTypeToPandasType f.dtype,
          sampleData (feastValueTypeToPandasType f.dtype)⟩

instance (v : OnDemandFeatureView) : Decidable (claimC4SampleBoth v) := by
  unfold claimC4SampleBoth
  infer_instance

/-- Claim C4 counterexample: for the view with one upstream field
`src.lat : double`, the synthetic batch's qualified column `src__lat` is
created as an *empty* series (`pd.Series(dtype=dtype)` carries no data),
not as a column populated with the canonical sample value `1.0`; only the
short column `lat` carries the sample. -/
theorem c4_counterexample : ¬ claimC4SampleBoth viewIdSrcLat := by
  decide

/-- Claim C4 (amended): the synthetic batch built by `infer_features`
contains, for every projection field, the fully-qualified column typed per
the field's declared value type but *empty* (no sample data), and the
short column populated with the canonical sample value for that dtype (an
empty series when no sample is known); plus one short-named sample column
per request-source field — provided the generated column names do not
collide. -/
theorem c4_amended (v : OnDemandFeatureView)
    (hnd : (akeys (inferSets v)).Nodup) :
    (∀ kp ∈ v.sourceFeatureViewProjections, ∀ f ∈ kp.2.features,
      alookup (buildInferDf v) (kp.2.name ++ "__" ++ f.name) =
          some ⟨feastValueTypeToPandasType f.dtype, []⟩ ∧
        alookup (buildInferDf v) f.name =
          some ⟨feastValueTypeToPandasType f.dtype,
            sampleData (feastValueTypeToPandasType f.dtype)⟩) ∧
    (∀ kr ∈ v.sourceRequestSources, ∀ f ∈ kr.2.schema,
      alookup (buildInferDf v) f.name =
        some ⟨feastValueTypeToPandasType f.dtype,
          sampleData (feastValueTypeToPandasType f.dtype)⟩) := by
  constructor
  · intro kp hkp f hf
    exact ⟨alookup_buildInferDf_of_nodup hnd (mem_inferSets_qualified hkp hf),
      alookup_buildInferDf_of_nodup hnd (mem_inferSets_short hkp hf)⟩
  · intro kr hkr f hf
    exact alookup_buildInferDf_of_nodup hnd (mem_inferSets_request hkr hf)

/-- Witness for the amended C4 at a concrete view: the qualified column is
typed yet empty, the short and request columns carry the sample value. -/
theorem c4_amended_witness :
    alookup (buildInferDf viewIdSrcLat) ("src" ++ "__" ++ "lat") =
        some ⟨"float", []⟩ ∧
      alookup (buildInferDf viewIdSrcLat) "lat" =
        some ⟨"float", sampleData "float"⟩ := by
  have h := ((c4_amended viewIdSrcLat (by decide)).1
    ("src", ⟨"src", none, [⟨"lat", .doubleT⟩]⟩) (by decide)
    ⟨"lat", .doubleT⟩ (by decide))
  exact h

/-! ### Claim C5 -/

/-- A transformation producing an empty output frame. -/
def emptyOutTransformation : Transformation :=
  .pandas "udf" [3] "def udf(df): return pd.DataFrame()" (fun _ => [])

/-- A view declaring an output field its transformation never produces. -/
def viewDeclaredMismatch : OnDemandFeatureView :=
  ⟨"odfv", [⟨"out", .doubleT⟩], [], [],
    emptyOutTransformation, emptyOutTransformation,
    "", [], "", ⟨"odfv", none, [⟨"out", .doubleT⟩]⟩, none, none⟩

/-- Claim C5: with a non-empty declared schema, if some declared field is
absent (by name-and-type equality) from the fields inferred by running the
transformation on the synthetic batch, `infer_features` raises
`SpecifiedFeaturesNotPresentError` carrying exactly the missing declared
fields and the full inferred field set; if every declared field is among
the inferred fields, inference succeeds with the declared schema kept
unchanged. -/
theorem c5_schema_mismatch (v : OnDemandFeatureView)
    (hne : v.features ≠ []) :
    ((∃ f ∈ v.features, f ∉ inferredFeaturesOf v) →
      inferFeatures v = .error (.specifiedFeaturesNotPresent
        (v.features.filter (fun f => f ∉ inferredFeaturesOf v))
        (inferredFeaturesOf v) v.name) ∧
      v.features.filter (fun f => f ∉ inferredFeaturesOf v) ≠ []) ∧
    ((∀ f ∈ v.features, f ∈ inferredFeaturesOf v) →
      inferFeatures v = .ok v) := by
  have hempty : v.features.isEmpty = false := by
    cases hv : v.features with
    | nil => exact absurd hv hne
    | cons a l => rfl
  constructor
  · rintro ⟨f, hf, hnot⟩
    have hmem : f ∈ v.features.filter (fun f => f ∉ inferredFeaturesOf v) := by
      apply List.mem_filter.mpr
      exact ⟨hf, by simpa using hnot⟩
    have hfil : v.features.filter (fun f => f ∉ inferredFeaturesOf v) ≠ [] :=
      List.ne_nil_of_mem hmem
    refine ⟨?_, hfil⟩
    have hfilempty :
        (v.features.filter (fun f => f ∉ inferredFeaturesOf v)).isEmpty =
          false := by
      cases hv : v.features.filter (fun f => f ∉ inferredFeaturesOf v) with
      | nil => exact absurd hv hfil
      | cons a l => rfl
    simp only [inferFeatures, hempty, Bool.false_eq_true, if_false, hfilempty]
  · intro hall
    have hfil : v.features.filter (fun f => f ∉ inferredFeaturesOf v) = [] := by
      rw [List.filter_eq_nil_iff]
      intro f hf
      simpa using hall f hf
    simp only [inferFeatures, hempty, Bool.false_eq_true, if_false, hfil]
    rfl

/-- Witness for C5 at a concrete view whose declared field `out` is not
among the (empty) inferred fields. -/
theorem c5_schema_mismatch_witness :
    inferFeatures viewDeclaredMismatch =
      .error (.specifiedFeaturesNotPresent [⟨"out", .doubleT⟩] [] "odfv") := by
  have h := ((c5_schema_mismatch viewDeclaredMismatch (by decide)).1
    ⟨⟨"out", .doubleT⟩, by decide, by decide⟩).1
  exact h

/-! ### Claim C1 -/

/-- A transformation whose payload survives the import chain: a substrait
plan, or a pandas function whose serialized source text is non-empty. -/
def importableB : Transformation → Bool
  | .pandas _ _ t _ => decide (t ≠ "")
  | .substrait _ _ => true

theorem field_roundtrip (f : Field) : Field.fromProto (Field.toProto f) = f :=
  rfl

theorem fields_roundtrip (fs : List Field) :
    (fs.map Field.toProto).map Field.fromProto = fs := by
  induction fs with
  | nil => rfl
  | cons f rest ih =>
    rw [List.map_cons, List.map_cons, ih, field_roundtrip]

theorem proj_roundtrip (p : FeatureViewProjection) :
    FeatureViewProjection.fromProto (FeatureViewProjection.toProto p) = p := by
  rw [FeatureViewProjection.toProto, FeatureViewProjection.fromProto,
    fields_roundtrip]

theorem req_roundtrip (r : RequestSource) :
    RequestSource.fromProto (RequestSource.toProto r) = r := by
  rw [RequestSource.toProto, RequestSource.fromProto, fields_roundtrip]

theorem akeys_map_wrap {β γ : Type} (g : β → γ) (l : List (String × β)) :
    akeys (l.map (fun kp => (kp.1, g kp.2))) = akeys l := by
  simp [akeys, List.map_map]

theorem foldl_aset_wrap {β γ : Type} (g : β → γ) :
    ∀ (l : List (String × β)) (acc : List (String × γ)),
      (∀ kp ∈ l, kp.1 ∉ akeys acc) → (akeys l).Nodup →
      l.foldl (fun acc2 kp => aset acc2 kp.1 (g kp.2)) acc =
        acc ++ l.map (fun kp => (kp.1, g kp.2)) := by
  intro l
  induction l with
  | nil => intro acc _ _; simp
  | cons kp rest ih =>
    intro acc hfresh hnd
    rw [akeys_cons, List.nodup_cons] at hnd
    rw [List.foldl_cons, aset_fresh _ (hfresh kp (List.mem_cons_self kp rest))]
    rw [ih (acc ++ [(kp.1, g kp.2)]) ?_ hnd.2]
    · rw [List.map_cons, List.append_assoc]
      rfl
    · intro kq hkq
      rw [akeys_append]
      intro hc
      rcases List.mem_append.mp hc with hc | hc
      · exact hfresh kq (List.mem_cons_of_mem kp hkq) hc
      · simp only [akeys, List.map] at hc
        rw [List.mem_singleton] at hc
        apply hnd.1
        rw [← hc]
        exact List.mem_map_of_mem Prod.fst hkq

theorem partition_foldl_proj :
    ∀ (ps : List FeatureViewProjection)
      (accP : List (String × FeatureViewProjection))
      (accR : List (String × RequestSource)),
      (∀ p ∈ ps, p.name ∉ akeys accP) →
      (ps.map FeatureViewProjection.name).Nodup →
      (ps.map SourceDecl.projectionDecl).foldl partitionStep (accP, accR) =
        (accP ++ ps.map (fun p => (p.name, p)), accR) := by
  intro ps
  induction ps with
  | nil => intro accP accR _ _; simp
  | cons p rest ih =>
    intro accP accR hfresh hnd
    rw [List.map_cons, List.nodup_cons] at hnd
    rw [List.map_cons, List.foldl_cons]
    have hstep : partitionStep (accP, accR) (SourceDecl.projectionDecl p) =
        (accP ++ [(p.name, p)], accR) := by
      rw [partitionStep]
      rw [aset_fresh _ (hfresh p (List.mem_cons_self p rest))]
    rw [hstep, ih (accP ++ [(p.name, p)]) accR ?_ hnd.2]
    · rw [List.map_cons, List.append_assoc]
      rfl
    · intro q hq
      rw [akeys_append]
      intro hc
      rcases List.mem_append.mp hc with hc | hc
      · exact hfresh q (List.mem_cons_of_mem p hq) hc
      · simp only [akeys, List.map] at hc
        rw [List.mem_singleton] at hc
        apply hnd.1
        rw [← hc]
        exact List.mem_map_of_mem FeatureViewProjection.name hq

theorem partition_foldl_req :
    ∀ (rs : List RequestSource)
      (accP : List (String × FeatureViewProjection))
      (accR : List (String × RequestSource)),
      (∀ r ∈ rs, r.name ∉ akeys accR) →
      (rs.map RequestSource.name).Nodup →
      (rs.map SourceDecl.requestSourceDecl).foldl partitionStep (accP, accR) =
        (accP, accR ++ rs.map (fun r => (r.name, r))) := by
  intro rs
  induction rs with
  | nil => intro accP accR _ _; simp
  | cons r rest ih =>
    intro accP accR hfresh hnd
    rw [List.map_cons, List.nodup_cons] at hnd
    rw [List.map_cons, List.foldl_cons]
    have hstep : partitionStep (accP, accR) (SourceDecl.requestSourceDecl r) =
        (accP, accR ++ [(r.name, r)]) := by
      rw [partitionStep]
      rw [aset_fresh _ (hfresh r (List.mem_cons_self r rest))]
    rw [hstep, ih accP (accR ++ [(r.name, r)]) ?_ hnd.2]
    · rw [List.map_cons, List.append_assoc]
      rfl
    · intro q hq
      rw [akeys_append]
      intro hc
      rcases List.mem_append.mp hc with hc | hc
      · exact hfresh q (List.mem_cons_of_mem r hq) hc
      · simp only [akeys, List.map] at hc
        rw [List.mem_singleton] at hc
        apply hnd.1
        rw [← hc]
        exact List.mem_map_of_mem RequestSource.name hq

theorem mapCongr {α β : Type} {f g : α → β} :
    ∀ (l : List α), (∀ a ∈ l, f a = g a) → l.map f = l.map g := by
  intro l
  induction l with
  | nil => intro _; rfl
  | cons a rest ih =>
    intro h
    rw [List.map_cons, List.map_cons, h a (List.mem_cons_self a rest),
      ih (fun b hb => h b (List.mem_cons_of_mem a hb))]

theorem toProto_proj_fold :
    ∀ (l : List (String × FeatureViewProjection))
      (acc : List (String × OnDemandSourceProto)),
      (∀ kp ∈ l, kp.1 ∉ akeys acc) → (akeys l).Nodup →
      l.foldl
          (fun acc2 kp =>
            aset acc2 kp.1
              (OnDemandSourceProto.featureViewProjectionS
                (FeatureViewProjection.toProto kp.2)))
          acc =
        acc ++ l.map
          (fun kp =>
            (kp.1,
              OnDemandSourceProto.featureViewProjectionS
                (FeatureViewProjection.toProto kp.2))) :=
  fun l acc hf hn =>
    foldl_aset_wrap
      (fun b => OnDemandSourceProto.featureViewProjectionS
        (FeatureViewProjection.toProto b)) l acc hf hn

theorem toProto_req_fold :
    ∀ (l : List (String × RequestSource))
      (acc : List (String × OnDemandSourceProto)),
      (∀ kr ∈ l, kr.1 ∉ akeys acc) → (akeys l).Nodup →
      l.foldl
          (fun acc2 kr =>
            aset acc2 kr.1
              (OnDemandSourceProto.requestDataSourceS
                (RequestSource.toProto kr.2)))
          acc =
        acc ++ l.map
          (fun kr =>
            (kr.1,
              OnDemandSourceProto.requestDataSourceS
                (RequestSource.toProto kr.2))) :=
  fun l acc hf hn =>
    foldl_aset_wrap
      (fun b => OnDemandSourceProto.requestDataSourceS
        (RequestSource.toProto b)) l acc hf hn

theorem akeys_wrap_proj (l : List (String × FeatureViewProjection)) :
    akeys (l.map
      (fun kp =>
        (kp.1,
          OnDemandSourceProto.featureViewProjectionS
            (FeatureViewProjection.toProto kp.2)))) = akeys l := by
  induction l with
  | nil => rfl
  | cons kp rest ih => rw [List.map_cons, akeys_cons, akeys_cons, ih]

theorem transformation_roundtrip_payload (v : OnDemandFeatureView)
    (h6 : importableB v.transformation = true) :
    (transformationFromProto (OnDemandFeatureView.toProto v).spec).payload =
      v.transformation.payload := by
  cases ht : v.transformation with
  | pandas n b t f =>
    have hft : (OnDemandFeatureView.toProto v).spec.featureTransformation =
        FeatureTransformationProto.userDefinedFunctionT ⟨n, b, t⟩ := by
      show (match v.transformation with
        | Transformation.pandas n b t _ =>
          FeatureTransformationProto.userDefinedFunctionT
            (pandasTransformationToProto n b t)
        | Transformation.substrait plan _ =>
          FeatureTransformationProto.substraitTransformationT plan) = _
      rw [ht]
      rfl
    rw [ht] at h6
    have hne : t ≠ "" := of_decide_eq_true h6
    simp only [transformationFromProto, hft]
    rw [if_pos hne]
    rfl
  | substrait plan f =>
    have hft : (OnDemandFeatureView.toProto v).spec.featureTransformation =
        FeatureTransformationProto.substraitTransformationT plan := by
      show (match v.transformation with
        | Transformation.pandas n b t _ =>
          FeatureTransformationProto.userDefinedFunctionT
            (pandasTransformationToProto n b t)
        | Transformation.substrait plan _ =>
          FeatureTransformationProto.substraitTransformationT plan) = _
      rw [ht]
    simp only [transformationFromProto, hft]
    rfl

/-- Claim C1 (amended): for every definition whose two source mappings are
keyed by their sources' own names, with no duplicate keys within a mapping
and no key shared across the two mappings (the documented source-name
uniqueness invariant), and whose transformation payload is importable (a
substrait plan, or a pandas function with non-empty serialized source
text), exporting with `to_proto` and importing with `from_proto` yields a
definition structurally equal to the original: same name, same
feature-view-projection and request-source mappings, same transformation
payload, same field list, and same description, tags and owner. -/
theorem c1_amended (v : OnDemandFeatureView)
    (h1 : ∀ kp ∈ v.sourceFeatureViewProjections, kp.1 = kp.2.name)
    (h2 : ∀ kr ∈ v.sourceRequestSources, kr.1 = kr.2.name)
    (h3 : (akeys v.sourceFeatureViewProjections).Nodup)
    (h4 : (akeys v.sourceRequestSources).Nodup)
    (h5 : ∀ k ∈ akeys v.sourceRequestSources,
      k ∉ akeys v.sourceFeatureViewProjections)
    (h6 : importableB v.transformation = true) :
    ∃ w, OnDemandFeatureView.fromProto (OnDemandFeatureView.toProto v) =
        Except.ok w ∧ odfvInterchangeEq v w := by
  have hsrc : (OnDemandFeatureView.toProto v).spec.sources =
      v.sourceFeatureViewProjections.map
        (fun kp =>
          (kp.1,
            OnDemandSourceProto.featureViewProjectionS
              (FeatureViewProjection.toProto kp.2)))
      ++ v.sourceRequestSources.map
        (fun kr =>
          (kr.1,
            OnDemandSourceProto.requestDataSourceS
              (RequestSource.toProto kr.2))) := by
    show v.sourceRequestSources.foldl
        (fun acc2 kr =>
          aset acc2 kr.1
            (OnDemandSourceProto.requestDataSourceS
              (RequestSource.toProto kr.2)))
        (v.sourceFeatureViewProjections.foldl
          (fun acc2 kp =>
            aset acc2 kp.1
              (OnDemandSourceProto.featureViewProjectionS
                (FeatureViewProjection.toProto kp.2)))
          []) = _
    rw [toProto_proj_fold v.sourceFeatureViewProjections []
      (fun kp _ => by simp [akeys]) h3]
    rw [List.nil_append]
    rw [toProto_req_fold v.sourceRequestSources _
      (fun kr hkr => by
        rw [akeys_wrap_proj]
        exact h5 kr.1 (List.mem_map_of_mem Prod.fst hkr)) h4]
  have hdecls :
      ((OnDemandFeatureView.toProto v).spec.sources.map
        (fun ks =>
          match ks.2 with
          | OnDemandSourceProto.featureViewProjectionS pr =>
            SourceDecl.projectionDecl (FeatureViewProjection.fromProto pr)
          | OnDemandSourceProto.requestDataSourceS r =>
            SourceDecl.requestSourceDecl (RequestSource.fromProto r))) =
      (v.sourceFeatureViewProjections.map Prod.snd).map
          SourceDecl.projectionDecl
        ++ (v.sourceRequestSources.map Prod.snd).map
          SourceDecl.requestSourceDecl := by
    rw [hsrc, List.map_append, List.map_map, List.map_map, List.map_map,
      List.map_map]
    congr 1
    · apply mapCongr
      intro kp _
      show SourceDecl.projectionDecl
          (FeatureViewProjection.fromProto (FeatureViewProjection.toProto kp.2)) =
        SourceDecl.projectionDecl kp.2
      rw [proj_roundtrip]
    · apply mapCongr
      intro kr _
      show SourceDecl.requestSourceDecl
          (RequestSource.fromProto (RequestSource.toProto kr.2)) =
        SourceDecl.requestSourceDecl kr.2
      rw [req_roundtrip]
  have hnamesP : (v.sourceFeatureViewProjections.map Prod.snd).map
      FeatureViewProjection.name = akeys v.sourceFeatureViewProjections := by
    rw [List.map_map]
    apply mapCongr
    intro kp hkp
    exact (h1 kp hkp).symm
  have hnamesR : (v.sourceRequestSources.map Prod.snd).map
      RequestSource.name = akeys v.sourceRequestSources := by
    rw [List.map_map]
    apply mapCongr
    intro kr hkr
    exact (h2 kr hkr).symm
  have hprojback : (v.sourceFeatureViewProjections.map Prod.snd).map
      (fun p => (p.name, p)) = v.sourceFeatureViewProjections := by
    rw [List.map_map]
    have : v.sourceFeatureViewProjections.map
        ((fun p => (p.name, p)) ∘ Prod.snd) =
        v.sourceFeatureViewProjections.map id := by
      apply mapCongr
      intro kp hkp
      show (kp.2.name, kp.2) = kp
      rw [← h1 kp hkp]
    rw [this, List.map_id]
  have hreqback : (v.sourceRequestSources.map Prod.snd).map
      (fun r => (r.name, r)) = v.sourceRequestSources := by
    rw [List.map_map]
    have : v.sourceRequestSources.map ((fun r => (r.name, r)) ∘ Prod.snd) =
        v.sourceRequestSources.map id := by
      apply mapCongr
      intro kr hkr
      show (kr.2.name, kr.2) = kr
      rw [← h2 kr hkr]
    rw [this, List.map_id]
  have hpart : partitionSources
      ((OnDemandFeatureView.toProto v).spec.sources.map
        (fun ks =>
          match ks.2 with
          | OnDemandSourceProto.featureViewProjectionS pr =>
            SourceDecl.projectionDecl (FeatureViewProjection.fromProto pr)
          | OnDemandSourceProto.requestDataSourceS r =>
            SourceDecl.requestSourceDecl (RequestSource.fromProto r))) =
      (v.sourceFeatureViewProjections, v.sourceRequestSources) := by
    rw [partitionSources, hdecls, List.foldl_append]
    rw [partition_foldl_proj (v.sourceFeatureViewProjections.map Prod.snd) [] []
      (fun p _ => by simp [akeys]) (by rw [hnamesP]; exact h3)]
    rw [List.nil_append, hprojback]
    rw [partition_foldl_req (v.sourceRequestSources.map Prod.snd)
      v.sourceFeatureViewProjections []
      (fun r _ => by simp [akeys]) (by rw [hnamesR]; exact h4)]
    rw [List.nil_append, hreqback]
  refine ⟨_, rfl, ?_⟩
  unfold odfvInterchangeEq
  refine ⟨rfl, ?_, ?_, ?_, ?_, rfl, rfl, rfl⟩
  · exact (congrArg Prod.fst hpart).symm
  · exact (congrArg Prod.snd hpart).symm
  · exact (transformation_roundtrip_payload v h6).symm
  · exact (fields_roundtrip v.features).symm

/-- Witness for the amended C1 at a concrete definition. -/
theorem c1_amended_witness :
    ∃ w, OnDemandFeatureView.fromProto
        (OnDemandFeatureView.toProto viewIdSrcLat) = Except.ok w ∧
      odfvInterchangeEq viewIdSrcLat w :=
  c1_amended viewIdSrcLat (by decide) (by decide) (by decide) (by decide)
    (by decide) (by decide)

/-- The property claim C1 asserts: export followed by import yields a
structurally equal definition. -/
def claimC1RoundTrip (v : OnDemandFeatureView) : Prop :=
  ∀ w, OnDemandFeatureView.fromProto (OnDemandFeatureView.toProto v) =
      Except.ok w → odfvInterchangeEq v w

/-- A definition whose pandas transformation has an empty serialized
source text (`udf_string` defaults to `""`) but a non-empty dill body. -/
def viewEmptyBodyText : OnDemandFeatureView :=
  ⟨"odfv", [⟨"out", .doubleT⟩],
    [("src", ⟨"src", none, [⟨"lat", .doubleT⟩]⟩)],
    [("req", ⟨"req", [⟨"threshold", .doubleT⟩]⟩)],
    .pandas "f" [1, 2] "" id, .pandas "f" [1, 2] "" id,
    "desc", [("k", "v")], "owner",
    ⟨"odfv", none, [⟨"out", .doubleT⟩]⟩, none, none⟩

/-- Claim C1 counterexample: when the transformation's serialized source
text (`body_text`) is empty, `from_proto` ignores the modern
user-defined-function slot and rebuilds the transformation from the legacy
`user_defined_function` spec field — which `to_proto` never fills — so the
reimported definition carries an empty transformation payload instead of
the original one. -/
theorem c1_counterexample : ¬ claimC1RoundTrip viewEmptyBodyText := by
  intro h
  have h2 := h _ rfl
  exact absurd h2 (by decide)
